import Mathlib

/-!
Verification of the scattering-model claims for the wave-optics hair
rendering core (the pbrt-style BxDF implementations of
src/pbrt/bxdfs.cpp).

Real arithmetic stands in for IEEE floats.  Helpers that the translation
unit consumes but does not define in src/ (the microfacet distribution,
the longitudinal lobe shape Mp, the azimuthal helpers, the
piecewise-linear interpolants, the BRDF table of the experimental
variant) enter either as explicit function parameters, mirroring the
capability contracts of the spec, or as definitions modelled from the
spec where the claims need their behaviour.
-/

open Real Finset

noncomputable section

/-- A 3-vector in the local shading frame (z is the macro-normal; for the
hair model x is the fiber axis). -/
structure Vec3 where
  x : ℝ
  y : ℝ
  z : ℝ

theorem Vec3.ext_iff2 (a b : Vec3) : a = b ↔ a.x = b.x ∧ a.y = b.y ∧ a.z = b.z := by
  constructor
  · rintro rfl; exact ⟨rfl, rfl, rfl⟩
  · rintro ⟨h1, h2, h3⟩; cases a; cases b; simp_all

def Vec3.add (a b : Vec3) : Vec3 := ⟨a.x + b.x, a.y + b.y, a.z + b.z⟩

def Vec3.neg (a : Vec3) : Vec3 := ⟨-a.x, -a.y, -a.z⟩

def Vec3.smul (c : ℝ) (a : Vec3) : Vec3 := ⟨c * a.x, c * a.y, c * a.z⟩

/-- Dot product (pbrt `Dot`). -/
def Vec3.dot (a b : Vec3) : ℝ := a.x * b.x + a.y * b.y + a.z * b.z

/-- pbrt `LengthSquared`. -/
def Vec3.lengthSq (a : Vec3) : ℝ := Vec3.dot a a

/-- pbrt `Length`. -/
def Vec3.length (a : Vec3) : ℝ := Real.sqrt a.lengthSq

/-- pbrt `Normalize`: `v / Length(v)`. -/
def Vec3.normalize (a : Vec3) : Vec3 := Vec3.smul (1 / a.length) a

/-- pbrt `CosTheta` in the local shading frame. -/
def CosTheta (w : Vec3) : ℝ := w.z

/-- pbrt `AbsCosTheta`. -/
def AbsCosTheta (w : Vec3) : ℝ := |w.z|

/-- pbrt `SameHemisphere` (as a proposition; the C++ test `w.z * wp.z > 0`). -/
def SameHemisphereP (a b : Vec3) : Prop := 0 < a.z * b.z

instance (a b : Vec3) : Decidable (SameHemisphereP a b) := by
  unfold SameHemisphereP; infer_instance

/-- `std::atan2(y, x)`, embedded as the complex argument of `x + y i`
(range `(-pi, pi]`, matching the C library convention away from the
origin). -/
def atan2 (y x : ℝ) : ℝ := Complex.arg ⟨x, y⟩

/-- pbrt `SafeSqrt`: `sqrt(max(0, x))`. -/
def SafeSqrt (x : ℝ) : ℝ := Real.sqrt (max 0 x)

/-- pbrt `SafeASin`: `asin(clamp(x, -1, 1))`. -/
def SafeASin (x : ℝ) : ℝ := Real.arcsin (max (-1) (min x 1))

/-- A spectral sample: fixed-size per-wavelength vector (the spec's
"spectral sample" capability contract; `NSpectrumSamples = n`). -/
def Spectrum (n : ℕ) : Type := Fin n → ℝ

/-- `SampledSpectrum::Average`. -/
def Spectrum.avg {n : ℕ} (s : Spectrum n) : ℝ := (∑ i, s i) / n

/-- The constant spectrum `SampledSpectrum(c)`. -/
def constSpec (n : ℕ) (c : ℝ) : Spectrum n := fun _ => c

/-- `TransportMode`: whether the path is traced from the sensor
(Radiance) or the light (Importance). -/
inductive TransportMode
  | Radiance
  | Importance
deriving DecidableEq

/-- `BxDFReflTransFlags`: the sample filter restricting which side of the
scattering event is sampled. -/
structure BxDFReflTransFlags where
  reflection : Bool
  transmission : Bool
deriving DecidableEq

/-- The lobe-descriptor flags carried by a returned sample. -/
inductive BxDFFlags
  | SpecularReflection
  | SpecularTransmission
  | GlossyReflection
  | GlossyTransmission
  | GlossyReflTrans
deriving DecidableEq

/-- `BSDFSample`: spectral weight, sampled direction, sampling density,
lobe flags and relative index of refraction. -/
structure BSDFSample (n : ℕ) where
  f : Spectrum n
  wi : Vec3
  pdf : ℝ
  flags : BxDFFlags
  eta : ℝ

/-- Modelled from the spec: the microfacet-distribution capability
contract (spec section 6), consumed by the dielectric model but
implemented outside src/. -/
structure Microfacet where
  D : Vec3 → ℝ
  G : Vec3 → Vec3 → ℝ
  PDF : Vec3 → Vec3 → ℝ
  Sample_wm : Vec3 → ℝ × ℝ → Vec3
  EffectivelySmooth : Bool

/-- The core of the Fresnel computation after normalizing to a
non-negative cosine (part of the modelled `FrDielectric` below). -/
def frCore (c e : ℝ) : ℝ :=
  let sin2Theta_i := 1 - c ^ 2
  let sin2Theta_t := sin2Theta_i / e ^ 2
  if 1 ≤ sin2Theta_t then 1
  else
    let cosTheta_t := Real.sqrt (1 - sin2Theta_t)
    let r_parl := (e * c - cosTheta_t) / (e * c + cosTheta_t)
    let r_perp := (c - e * cosTheta_t) / (c + e * cosTheta_t)
    (r_parl ^ 2 + r_perp ^ 2) / 2

/-- Modelled from the spec: `FrDielectric`, the Fresnel reflectance of a
smooth dielectric interface at a given cosine and relative index
(declared in pbrt/util, outside src/; the spec consumes it as "Fresnel
reflectance R ... at the geometric angle").  A negative cosine flips the
interface (`eta` becomes `1/eta`). -/
def FrDielectric (cosTheta_i eta : ℝ) : ℝ :=
  let c0 := max (-1) (min cosTheta_i 1)
  if c0 < 0 then frCore (-c0) (1 / eta) else frCore c0 eta

/-- Modelled from the spec: `Refract` — refraction of `wi` about normal
`n` with relative index `eta` by Snell's law; `none` on total internal
reflection (defined outside src/, consumed as "refract using the
relative index; a failed refraction (total internal reflection) ...
yields no sample").  On success returns the adjusted relative index
`etap` and the refracted direction. -/
def Refract (wi n : Vec3) (eta : ℝ) : Option (ℝ × Vec3) :=
  let c0 := Vec3.dot n wi
  let c := if c0 < 0 then -c0 else c0
  let e := if c0 < 0 then 1 / eta else eta
  let nf := if c0 < 0 then Vec3.neg n else n
  let sin2Theta_i := max 0 (1 - c ^ 2)
  let sin2Theta_t := sin2Theta_i / e ^ 2
  if 1 ≤ sin2Theta_t then none
  else
    let cosTheta_t := Real.sqrt (1 - sin2Theta_t)
    some (e, Vec3.add (Vec3.smul (-(1 / e)) wi) (Vec3.smul (c / e - cosTheta_t) nf))

/-- pbrt `Reflect`: `-wo + 2 Dot(wo, n) n`. -/
def Reflect (wo n : Vec3) : Vec3 :=
  Vec3.add (Vec3.neg wo) (Vec3.smul (2 * Vec3.dot wo n) n)

/-- `FaceForward(n, (0,0,1))`: flip `n` so its z-component is
non-negative. -/
def faceForwardZ (w : Vec3) : Vec3 := if w.z < 0 then Vec3.neg w else w

/-- The dielectric model state: relative index of refraction and the
externally owned roughness descriptor. -/
structure DielectricBxDF where
  eta : ℝ
  mfDistrib : Microfacet

/-- The `etap` computed by `DielectricBxDF::f` from the direction pair
(1 for reflection configurations, else `eta` or `1/eta` by the sign of
`cos theta_o`). -/
def DielectricBxDF.etapOf (b : DielectricBxDF) (wo wi : Vec3) : ℝ :=
  if 0 < wi.z * wo.z then 1 else if 0 < wo.z then b.eta else 1 / b.eta

/-- The generalized half vector `wm = wi * etap + wo` formed by
`DielectricBxDF::f` before normalization. -/
def DielectricBxDF.genHalf (b : DielectricBxDF) (wo wi : Vec3) : Vec3 :=
  Vec3.add (Vec3.smul (DielectricBxDF.etapOf b wo wi) wi) wo

/-- `DielectricBxDF::f` (src/pbrt/bxdfs.cpp lines 178-215).  The returned
spectrum is constant across wavelengths, so it is embedded as a
scalar. -/
def DielectricBxDF.f (b : DielectricBxDF) (wo wi : Vec3) (mode : TransportMode) : ℝ :=
  if b.eta = 1 ∨ b.mfDistrib.EffectivelySmooth then 0
  else
    let cosTheta_o := CosTheta wo
    let cosTheta_i := CosTheta wi
    let etap := DielectricBxDF.etapOf b wo wi
    let wm0 := DielectricBxDF.genHalf b wo wi
    if cosTheta_i = 0 ∨ cosTheta_o = 0 ∨ Vec3.lengthSq wm0 = 0 then 0
    else
      let wm := faceForwardZ (Vec3.normalize wm0)
      if Vec3.dot wm wi * cosTheta_i < 0 ∨ Vec3.dot wm wo * cosTheta_o < 0 then 0
      else
        let F := FrDielectric (Vec3.dot wo wm) b.eta
        if 0 < cosTheta_i * cosTheta_o then
          b.mfDistrib.D wm * b.mfDistrib.G wo wi * F / |4 * cosTheta_i * cosTheta_o|
        else
          let denom := (Vec3.dot wi wm + Vec3.dot wo wm / etap) ^ 2 * cosTheta_i * cosTheta_o
          let ft := b.mfDistrib.D wm * (1 - F) * b.mfDistrib.G wo wi *
            |Vec3.dot wi wm * Vec3.dot wo wm / denom|
          if mode = TransportMode.Radiance then ft / etap ^ 2 else ft

/-- `DielectricBxDF::Sample_f` (src/pbrt/bxdfs.cpp lines 83-176), both
the perfectly specular and the rough branch. -/
def DielectricBxDF.Sample_f (n : ℕ) (b : DielectricBxDF) (wo : Vec3) (uc : ℝ)
    (u : ℝ × ℝ) (mode : TransportMode) (sampleFlags : BxDFReflTransFlags) :
    Option (BSDFSample n) :=
  if b.eta = 1 ∨ b.mfDistrib.EffectivelySmooth then
    let R := FrDielectric (CosTheta wo) b.eta
    let T := 1 - R
    let pr := if sampleFlags.reflection then R else 0
    let pt := if sampleFlags.transmission then T else 0
    if pr = 0 ∧ pt = 0 then none
    else if uc < pr / (pr + pt) then
      let wi : Vec3 := ⟨-wo.x, -wo.y, wo.z⟩
      some ⟨constSpec n (R / AbsCosTheta wi), wi, pr / (pr + pt),
        BxDFFlags.SpecularReflection, 1⟩
    else
      match Refract wo ⟨0, 0, 1⟩ b.eta with
      | none => none
      | some (etap, wi) =>
        let ft := T / AbsCosTheta wi
        let ft := if mode = TransportMode.Radiance then ft / etap ^ 2 else ft
        some ⟨constSpec n ft, wi, pt / (pr + pt), BxDFFlags.SpecularTransmission, etap⟩
  else
    let wm := b.mfDistrib.Sample_wm wo u
    let R := FrDielectric (Vec3.dot wo wm) b.eta
    let T := 1 - R
    let pr := if sampleFlags.reflection then R else 0
    let pt := if sampleFlags.transmission then T else 0
    if pr = 0 ∧ pt = 0 then none
    else if uc < pr / (pr + pt) then
      let wi := Reflect wo wm
      if ¬ SameHemisphereP wo wi then none
      else
        let pdf := b.mfDistrib.PDF wo wm / (4 * |Vec3.dot wo wm|) * pr / (pr + pt)
        let fv := b.mfDistrib.D wm * b.mfDistrib.G wo wi * R /
          (4 * CosTheta wi * CosTheta wo)
        some ⟨constSpec n fv, wi, pdf, BxDFFlags.GlossyReflection, 1⟩
    else
      match Refract wo wm b.eta with
      | none => none
      | some (etap, wi) =>
        if SameHemisphereP wo wi ∨ wi.z = 0 then none
        else
          let denom := (Vec3.dot wi wm + Vec3.dot wo wm / etap) ^ 2
          let dwm_dwi := |Vec3.dot wi wm| / denom
          let pdf := b.mfDistrib.PDF wo wm * dwm_dwi * pt / (pr + pt)
          let ft := T * b.mfDistrib.D wm * b.mfDistrib.G wo wi *
            |Vec3.dot wi wm * Vec3.dot wo wm / (CosTheta wi * CosTheta wo * denom)|
          let ft := if mode = TransportMode.Radiance then ft / etap ^ 2 else ft
          some ⟨constSpec n ft, wi, pdf, BxDFFlags.GlossyTransmission, etap⟩

/-- 2-pi-periodic wrapping of an angle into `[-pi, pi)` (the
`while (phi > Pi) ... while (phi < -Pi) ...` normalization applied by the
azimuthal lobe helper). -/
def wrapAngle (t : ℝ) : ℝ := t - 2 * π * ⌊(t + π) / (2 * π)⌋

/-- Modelled from the spec: the helper functions of the hair model that
are declared outside src/ — the longitudinal lobe shape `Mp`, the
closed-form azimuthal phase shift `Phi`, the trimmed logistic density and
its inverse-transform sampler ("a trimmed logistic distribution centered
at a closed-form phase shift").  They enter as abstract parameters. -/
structure HairHelpers where
  Mp : ℝ → ℝ → ℝ → ℝ → ℝ → ℝ
  Phi : ℕ → ℝ → ℝ → ℝ
  TrimmedLogistic : ℝ → ℝ → ℝ → ℝ → ℝ
  SampleTrimmedLogistic : ℝ → ℝ → ℝ → ℝ → ℝ

/-- Modelled from the spec: the azimuthal lobe shape `Np` — the trimmed
logistic evaluated at the 2-pi-wrapped offset of `phi` from the phase
shift `Phi(p, gammaO, gammaT)` (declared outside src/). -/
def Np (H : HairHelpers) (phi : ℝ) (p : ℕ) (s gammaO gammaT : ℝ) : ℝ :=
  H.TrimmedLogistic (wrapAngle (phi - H.Phi p gammaO gammaT)) s (-π) π

/-- Modelled from the spec: the per-lobe attenuation terms
`Ap[0..pMax]` — "a Fresnel/transmittance decomposition supplied by a
helper, one term per number of internal reflections, with the last entry
aggregating all higher orders" (declared outside src/; `pMax = 3`). -/
def Ap (n : ℕ) (cosTheta_o eta hh : ℝ) (T : Spectrum n) : Fin 4 → Spectrum n :=
  let cosGamma_o := SafeSqrt (1 - hh ^ 2)
  let f := FrDielectric (cosTheta_o * cosGamma_o) eta
  ![constSpec n f,
    fun j => (1 - f) ^ 2 * T j,
    fun j => (1 - f) ^ 2 * T j * (T j * f),
    fun j => (1 - f) ^ 2 * T j * (T j * f) * (f * T j) / (1 - T j * f)]

/-- The hair model state: the constructor parameters together with the
derived, frozen quantities (`v`, `s`, the tilt terms). -/
structure HairBxDF (n : ℕ) where
  h : ℝ
  eta : ℝ
  sigma_a : Spectrum n
  beta_m : ℝ
  beta_n : ℝ
  v : Fin 4 → ℝ
  s : ℝ
  sin2kAlpha : Fin 3 → ℝ
  cos2kAlpha : Fin 3 → ℝ

/-- The `HairBxDF` constructor (src/pbrt/bxdfs.cpp lines 281-328):
derives the longitudinal variances, the azimuthal logistic scale and the
doubled-tilt trigonometric terms. -/
def HairBxDF.construct (n : ℕ) (h eta : ℝ) (sigma_a : Spectrum n)
    (beta_m beta_n alpha : ℝ) : HairBxDF n :=
  let v0 := (0.726 * beta_m + 0.812 * beta_m ^ 2 + 3.7 * beta_m ^ 20) ^ 2
  let SqrtPiOver8 : ℝ := 0.626657069
  let s := SqrtPiOver8 *
    (0.265 * beta_n + 1.194 * beta_n ^ 2 + 5.372 * beta_n ^ 22)
  let sin0 := Real.sin (alpha * π / 180)
  let cos0 := SafeSqrt (1 - sin0 ^ 2)
  let sin1 := 2 * cos0 * sin0
  let cos1 := cos0 ^ 2 - sin0 ^ 2
  let sin2 := 2 * cos1 * sin1
  let cos2 := cos1 ^ 2 - sin1 ^ 2
  ⟨h, eta, sigma_a, beta_m, beta_n, ![v0, 0.25 * v0, 4 * v0, 4 * v0], s,
    ![sin0, sin1, sin2], ![cos0, cos1, cos2]⟩

/-- The scale-tilt adjustment of `(sin theta_o, cos theta_o)` for lobe
order `p` — the block repeated verbatim in `f`, `Sample_f` and `PDF`
(order 0 tilts one way, orders 1 and 2 the opposite way, higher orders
are untilted). -/
def tiltedSinCos {n : ℕ} (st : HairBxDF n) (sinTheta_o cosTheta_o : ℝ) :
    ℕ → ℝ × ℝ
  | 0 => (sinTheta_o * st.cos2kAlpha 1 - cosTheta_o * st.sin2kAlpha 1,
          cosTheta_o * st.cos2kAlpha 1 + sinTheta_o * st.sin2kAlpha 1)
  | 1 => (sinTheta_o * st.cos2kAlpha 0 + cosTheta_o * st.sin2kAlpha 0,
          cosTheta_o * st.cos2kAlpha 0 - sinTheta_o * st.sin2kAlpha 0)
  | 2 => (sinTheta_o * st.cos2kAlpha 2 + cosTheta_o * st.sin2kAlpha 2,
          cosTheta_o * st.cos2kAlpha 2 - sinTheta_o * st.sin2kAlpha 2)
  | _ => (sinTheta_o, cosTheta_o)

/-- The `Ap` array as computed from `cosTheta_o` by `HairBxDF::ApPDF`
(src/pbrt/bxdfs.cpp lines 407-423): refracted angles, single-pass
transmittance, then the attenuation terms. -/
def HairBxDF.apOf {n : ℕ} (st : HairBxDF n) (cosTheta_o : ℝ) : Fin 4 → Spectrum n :=
  let sinTheta_o := SafeSqrt (1 - cosTheta_o ^ 2)
  let sinTheta_t := sinTheta_o / st.eta
  let cosTheta_t := SafeSqrt (1 - sinTheta_t ^ 2)
  let etap := SafeSqrt (st.eta ^ 2 - sinTheta_o ^ 2) / cosTheta_o
  let sinGamma_t := st.h / etap
  let cosGamma_t := SafeSqrt (1 - sinGamma_t ^ 2)
  let T : Spectrum n := fun j => Real.exp (-(st.sigma_a j) * (2 * cosGamma_t / cosTheta_t))
  Ap n cosTheta_o st.eta st.h T

/-- The normalization sum `sumY` of `HairBxDF::ApPDF` (lines 427-429). -/
def HairBxDF.apSumY {n : ℕ} (st : HairBxDF n) (cosTheta_o : ℝ) : ℝ :=
  ∑ p : Fin 4, (HairBxDF.apOf st cosTheta_o p).avg

/-- `HairBxDF::ApPDF` (src/pbrt/bxdfs.cpp lines 407-434): the
lobe-selection distribution over the `pMax + 1` attenuation terms. -/
def HairBxDF.ApPDF {n : ℕ} (st : HairBxDF n) (cosTheta_o : ℝ) : Fin 4 → ℝ :=
  fun i => (HairBxDF.apOf st cosTheta_o i).avg / HairBxDF.apSumY st cosTheta_o

/-- `HairBxDF::f` (src/pbrt/bxdfs.cpp lines 331-405). -/
def HairBxDF.f {n : ℕ} (st : HairBxDF n) (H : HairHelpers) (wo wi : Vec3)
    (_mode : TransportMode) : Spectrum n :=
  let sinTheta_o := wo.x
  let cosTheta_o := SafeSqrt (1 - sinTheta_o ^ 2)
  let phi_o := atan2 wo.z wo.y
  let gamma_o := SafeASin st.h
  let sinTheta_i := wi.x
  let cosTheta_i := SafeSqrt (1 - sinTheta_i ^ 2)
  let phi_i := atan2 wi.z wi.y
  let sinTheta_t := sinTheta_o / st.eta
  let cosTheta_t := SafeSqrt (1 - sinTheta_t ^ 2)
  let etap := SafeSqrt (st.eta ^ 2 - sinTheta_o ^ 2) / cosTheta_o
  let sinGamma_t := st.h / etap
  let cosGamma_t := SafeSqrt (1 - sinGamma_t ^ 2)
  let gamma_t := SafeASin sinGamma_t
  let T : Spectrum n := fun j => Real.exp (-(st.sigma_a j) * (2 * cosGamma_t / cosTheta_t))
  let phi := phi_i - phi_o
  let ap := Ap n cosTheta_o st.eta st.h T
  let tilt := fun (q : ℕ) => tiltedSinCos st sinTheta_o cosTheta_o q
  let fsum : Spectrum n := fun j =>
    (∑ q : Fin 3,
      H.Mp cosTheta_i |(tilt q.val).2| sinTheta_i (tilt q.val).1 (st.v q.castSucc) *
        ap q.castSucc j * Np H phi q.val st.s gamma_o gamma_t) +
    H.Mp cosTheta_i cosTheta_o sinTheta_i sinTheta_o (st.v 3) * ap 3 j / (2 * π)
  if 0 < AbsCosTheta wi then (fun j => fsum j / AbsCosTheta wi) else fsum

/-- Modelled from the spec: `SampleDiscrete` — draws an index from the
given (4-entry) distribution using `u` and rescales the remainder of `u`
for reuse within the chosen entry (declared outside src/). -/
def SampleDiscrete (w : Fin 4 → ℝ) (u : ℝ) : Fin 4 × ℝ :=
  let sw := ∑ i, w i
  let up := u * sw
  if up < w 0 then (0, up / w 0)
  else if up < w 0 + w 1 then (1, (up - w 0) / w 1)
  else if up < w 0 + w 1 + w 2 then (2, (up - (w 0 + w 1)) / w 2)
  else (3, (up - (w 0 + w 1 + w 2)) / w 3)

/-- The body of `HairBxDF::Sample_f` (src/pbrt/bxdfs.cpp lines 437-542):
lobe selection by `ApPDF`, longitudinal inverse-transform sampling,
azimuthal sampling, reconstruction of `wi` and the full mixture
density. -/
def HairBxDF.sampleCore {n : ℕ} (st : HairBxDF n) (H : HairHelpers) (wo : Vec3)
    (uc : ℝ) (u : ℝ × ℝ) (mode : TransportMode) : BSDFSample n :=
  let sinTheta_o := wo.x
  let cosTheta_o := SafeSqrt (1 - sinTheta_o ^ 2)
  let phi_o := atan2 wo.z wo.y
  let gamma_o := SafeASin st.h
  let apPDF := HairBxDF.ApPDF st cosTheta_o
  let pu := SampleDiscrete apPDF uc
  let p := pu.1
  let uc2 := pu.2
  let tiltSel := tiltedSinCos st sinTheta_o cosTheta_o p.val
  let sinThetap_o := tiltSel.1
  let cosThetap_o := |tiltSel.2|
  let cosTheta := 1 + st.v p *
    Real.log (max u.1 (1e-5 : ℝ) + (1 - u.1) * Real.exp (-2 / st.v p))
  let sinTheta := SafeSqrt (1 - cosTheta ^ 2)
  let cosPhi := Real.cos (2 * π * u.2)
  let sinTheta_i := -cosTheta * sinThetap_o + sinTheta * cosPhi * cosThetap_o
  let cosTheta_i := SafeSqrt (1 - sinTheta_i ^ 2)
  let etap := SafeSqrt (st.eta ^ 2 - sinTheta_o ^ 2) / cosTheta_o
  let sinGamma_t := st.h / etap
  let gamma_t := SafeASin sinGamma_t
  let dphi := if p.val < 3 then
      H.Phi p.val gamma_o gamma_t + H.SampleTrimmedLogistic uc2 st.s (-π) π
    else 2 * π * uc2
  let phi_i := phi_o + dphi
  let wi : Vec3 := ⟨sinTheta_i, cosTheta_i * Real.cos phi_i, cosTheta_i * Real.sin phi_i⟩
  let tilt := fun (q : ℕ) => tiltedSinCos st sinTheta_o cosTheta_o q
  let pdf :=
    (∑ q : Fin 3,
      H.Mp cosTheta_i |(tilt q.val).2| sinTheta_i (tilt q.val).1 (st.v q.castSucc) *
        apPDF q.castSucc * Np H dphi q.val st.s gamma_o gamma_t) +
    H.Mp cosTheta_i cosTheta_o sinTheta_i sinTheta_o (st.v 3) * apPDF 3 * (1 / (2 * π))
  ⟨HairBxDF.f st H wo wi mode, wi, pdf, BxDFFlags.GlossyReflTrans, 1⟩

/-- `HairBxDF::Sample_f`: the C++ signature takes the sample filter but
its body never consults it and always returns an engaged optional. -/
def HairBxDF.Sample_f {n : ℕ} (st : HairBxDF n) (H : HairHelpers) (wo : Vec3)
    (uc : ℝ) (u : ℝ × ℝ) (mode : TransportMode)
    (_sampleFlags : BxDFReflTransFlags) : Option (BSDFSample n) :=
  some (HairBxDF.sampleCore st H wo uc u mode)

/-- `HairBxDF::PDF` (src/pbrt/bxdfs.cpp lines 544-598). -/
def HairBxDF.PDF {n : ℕ} (st : HairBxDF n) (H : HairHelpers) (wo wi : Vec3)
    (_mode : TransportMode) (_sampleFlags : BxDFReflTransFlags) : ℝ :=
  let sinTheta_o := wo.x
  let cosTheta_o := SafeSqrt (1 - sinTheta_o ^ 2)
  let phi_o := atan2 wo.z wo.y
  let gamma_o := SafeASin st.h
  let sinTheta_i := wi.x
  let cosTheta_i := SafeSqrt (1 - sinTheta_i ^ 2)
  let phi_i := atan2 wi.z wi.y
  let etap := SafeSqrt (st.eta * st.eta - sinTheta_o ^ 2) / cosTheta_o
  let sinGamma_t := st.h / etap
  let gamma_t := SafeASin sinGamma_t
  let apPDF := HairBxDF.ApPDF st cosTheta_o
  let phi := phi_i - phi_o
  let tilt := fun (q : ℕ) => tiltedSinCos st sinTheta_o cosTheta_o q
  (∑ q : Fin 3,
    H.Mp cosTheta_i |(tilt q.val).2| sinTheta_i (tilt q.val).1 (st.v q.castSucc) *
      apPDF q.castSucc * Np H phi q.val st.s gamma_o gamma_t) +
  H.Mp cosTheta_i cosTheta_o sinTheta_i sinTheta_o (st.v 3) * apPDF 3 * (1 / (2 * π))

/-- The experimental table-driven variant `MorphoBSDF`: hair state plus a
wavelength index and the process-global BRDF table, here an explicit
reference as the spec's design note prescribes. -/
structure MorphoBSDF (n : ℕ) extends HairBxDF n where
  wavelengthIndex : ℕ
  table : ℕ → ℕ → Fin n → ℝ

/-- `MorphoBSDF::LookupBRDFTable` (lines 733-739). -/
def MorphoBSDF.LookupBRDFTable {n : ℕ} (m : MorphoBSDF n) (it ot : ℕ) : Spectrum n :=
  fun i => m.table it ot i / 2.5

/-- `MorphoBSDF::ComputeApPdf` (lines 741-769); identical computation to
`HairBxDF::ApPDF` with an extra unused direction argument. -/
def MorphoBSDF.ComputeApPdf {n : ℕ} (m : MorphoBSDF n) (cosTheta_o : ℝ)
    (_wo : Vec3) : Fin 4 → ℝ :=
  HairBxDF.ApPDF m.toHairBxDF cosTheta_o

/-- `MorphoBSDF::f` (lines 635-731): table lookup by rounded
incidence/exitance degrees, scaled by the single-pass transmittance. -/
def MorphoBSDF.f {n : ℕ} (m : MorphoBSDF n) (wo wi : Vec3)
    (_mode : TransportMode) : Spectrum n :=
  let sinTheta_o := wo.x
  let cosTheta_o := SafeSqrt (1 - sinTheta_o ^ 2)
  let sinTheta_t := sinTheta_o / m.eta
  let cosTheta_t := SafeSqrt (1 - sinTheta_t ^ 2)
  let etap := SafeSqrt (m.eta ^ 2 - sinTheta_o ^ 2) / cosTheta_o
  let sinGamma_t := m.h / etap
  let cosGamma_t := SafeSqrt (1 - sinGamma_t ^ 2)
  let it := (round (atan2 wi.x (Real.sqrt (wi.y ^ 2 + wi.z ^ 2)) * 180 / π)).natAbs
  let ot := (round (atan2 wo.x (Real.sqrt (wo.y ^ 2 + wo.z ^ 2)) * 180 / π)).natAbs
  let T : Spectrum n := fun j => Real.exp (-(m.sigma_a j) * (2 * cosGamma_t / cosTheta_t))
  fun j => (m.table it ot j / 2.5) * T j

/-- `MorphoBSDF::Sample_f` (src/pbrt/bxdfs.cpp lines 771-848).  Note:
the azimuthal phase shift and the azimuthal lobe are evaluated with
BOTH impact-angle arguments equal to `gamma_o` (lines 817 and 842), and
no `std::abs` is applied to the tilted cosines. -/
def MorphoBSDF.Sample_f {n : ℕ} (m : MorphoBSDF n) (H : HairHelpers) (wo : Vec3)
    (uc : ℝ) (u : ℝ × ℝ) (mode : TransportMode)
    (_sampleFlags : BxDFReflTransFlags) : Option (BSDFSample n) :=
  let sinTheta_o := wo.x
  let cosTheta_o := SafeSqrt (1 - sinTheta_o ^ 2)
  let phi_o := atan2 wo.z wo.y
  let gamma_o := SafeASin m.h
  let apPdf := MorphoBSDF.ComputeApPdf m cosTheta_o wo
  let pu := SampleDiscrete apPdf uc
  let p := pu.1
  let uc2 := pu.2
  let tiltSel := tiltedSinCos m.toHairBxDF sinTheta_o cosTheta_o p.val
  let sinThetap_o := tiltSel.1
  let cosThetap_o := tiltSel.2
  let _it := (round (atan2 wo.x cosTheta_o * 180 / π)).natAbs
  let _ot := (round (atan2 sinThetap_o cosThetap_o * 180 / π)).natAbs
  let _brdfSample := MorphoBSDF.LookupBRDFTable m _it _ot
  let cosTheta := 1 + m.v p *
    Real.log (max u.1 (1e-5 : ℝ) + (1 - u.1) * Real.exp (-2 / m.v p))
  let sinTheta := SafeSqrt (1 - cosTheta ^ 2)
  let cosPhi := Real.cos (2 * π * u.2)
  let sinTheta_i := -cosTheta * sinThetap_o + sinTheta * cosPhi * cosThetap_o
  let cosTheta_i := SafeSqrt (1 - sinTheta_i ^ 2)
  let dphi := if p.val < 3 then
      H.Phi p.val gamma_o gamma_o + H.SampleTrimmedLogistic uc2 m.s (-π) π
    else 2 * π * uc2
  let phi_i := phi_o + dphi
  let wi : Vec3 := ⟨sinTheta_i, cosTheta_i * Real.cos phi_i, cosTheta_i * Real.sin phi_i⟩
  let tilt := fun (q : ℕ) => tiltedSinCos m.toHairBxDF sinTheta_o cosTheta_o q
  let pdf :=
    (∑ q : Fin 3,
      H.Mp cosTheta_i (tilt q.val).2 sinTheta_i (tilt q.val).1 (m.v q.castSucc) *
        apPdf q.castSucc * Np H dphi q.val m.s gamma_o gamma_o) +
    H.Mp cosTheta_i cosTheta_o sinTheta_i sinTheta_o (m.v 3) * apPdf 3 * (1 / (2 * π))
  some ⟨MorphoBSDF.f m wo wi mode, wi, pdf, BxDFFlags.GlossyReflTrans, 1⟩

/-- `MorphoBSDF::Pdf` (src/pbrt/bxdfs.cpp lines 850-905).  Note: the
azimuthal lobe is evaluated with `(gamma_o, gamma_t)` (line 898), the
per-lobe factor is the wavelength-averaged table lookup, and the tilted
angles computed in the loop are unused. -/
def MorphoBSDF.Pdf {n : ℕ} (m : MorphoBSDF n) (H : HairHelpers) (wo wi : Vec3)
    (_mode : TransportMode) (_sampleFlags : BxDFReflTransFlags) : ℝ :=
  let sinTheta_o := wo.x
  let cosTheta_o := SafeSqrt (1 - sinTheta_o ^ 2)
  let phi_o := atan2 wo.z wo.y
  let gamma_o := SafeASin m.h
  let sinTheta_i := wi.x
  let cosTheta_i := SafeSqrt (1 - sinTheta_i ^ 2)
  let phi_i := atan2 wi.z wi.y
  let etap := SafeSqrt (m.eta ^ 2 - sinTheta_o ^ 2) / cosTheta_o
  let sinGamma_t := m.h / etap
  let gamma_t := SafeASin sinGamma_t
  let apPDF := MorphoBSDF.ComputeApPdf m cosTheta_o wo
  let phi := phi_i - phi_o
  let it := (round (atan2 wi.x cosTheta_i * 180 / π)).natAbs
  let ot := (round (atan2 wo.x cosTheta_o * 180 / π)).natAbs
  (∑ q : Fin 3,
    (MorphoBSDF.LookupBRDFTable m it ot).avg * apPDF q.castSucc *
      Np H phi q.val m.s gamma_o gamma_t) +
  H.Mp cosTheta_i cosTheta_o sinTheta_i sinTheta_o (m.v 3) * apPDF 3 * (1 / (2 * π))

/-- The density path of the experimental variant as claim C8 describes
it: identical to `MorphoBSDF::Pdf` except that the azimuthal lobe gets
BOTH impact-angle arguments equal to the incident impact angle
`gamma_o`. -/
def MorphoBSDF.PdfBothGammaO {n : ℕ} (m : MorphoBSDF n) (H : HairHelpers) (wo wi : Vec3)
    (_mode : TransportMode) (_sampleFlags : BxDFReflTransFlags) : ℝ :=
  let sinTheta_o := wo.x
  let cosTheta_o := SafeSqrt (1 - sinTheta_o ^ 2)
  let phi_o := atan2 wo.z wo.y
  let gamma_o := SafeASin m.h
  let sinTheta_i := wi.x
  let cosTheta_i := SafeSqrt (1 - sinTheta_i ^ 2)
  let phi_i := atan2 wi.z wi.y
  let apPDF := MorphoBSDF.ComputeApPdf m cosTheta_o wo
  let phi := phi_i - phi_o
  let it := (round (atan2 wi.x cosTheta_i * 180 / π)).natAbs
  let ot := (round (atan2 wo.x cosTheta_o * 180 / π)).natAbs
  (∑ q : Fin 3,
    (MorphoBSDF.LookupBRDFTable m it ot).avg * apPDF q.castSucc *
      Np H phi q.val m.s gamma_o gamma_o) +
  H.Mp cosTheta_i cosTheta_o sinTheta_i sinTheta_o (m.v 3) * apPDF 3 * (1 / (2 * π))

/-- The sample path of the experimental variant as claim C8 describes
it: lobe selection, longitudinal sampling, then `Phi` and `Np` called
with both impact-angle arguments set to the incident impact angle
`gamma_o`. -/
def MorphoBSDF.SampleBothGammaO {n : ℕ} (m : MorphoBSDF n) (H : HairHelpers) (wo : Vec3)
    (uc : ℝ) (u : ℝ × ℝ) (mode : TransportMode)
    (_sampleFlags : BxDFReflTransFlags) : Option (BSDFSample n) :=
  let sinTheta_o := wo.x
  let cosTheta_o := SafeSqrt (1 - sinTheta_o ^ 2)
  let phi_o := atan2 wo.z wo.y
  let gamma_o := SafeASin m.h
  let apPdf := MorphoBSDF.ComputeApPdf m cosTheta_o wo
  let pu := SampleDiscrete apPdf uc
  let p := pu.1
  let uc2 := pu.2
  let tiltSel := tiltedSinCos m.toHairBxDF sinTheta_o cosTheta_o p.val
  let sinThetap_o := tiltSel.1
  let cosThetap_o := tiltSel.2
  let cosTheta := 1 + m.v p *
    Real.log (max u.1 (1e-5 : ℝ) + (1 - u.1) * Real.exp (-2 / m.v p))
  let sinTheta := SafeSqrt (1 - cosTheta ^ 2)
  let cosPhi := Real.cos (2 * π * u.2)
  let sinTheta_i := -cosTheta * sinThetap_o + sinTheta * cosPhi * cosThetap_o
  let cosTheta_i := SafeSqrt (1 - sinTheta_i ^ 2)
  let dphi := if p.val < 3 then
      H.Phi p.val gamma_o gamma_o + H.SampleTrimmedLogistic uc2 m.s (-π) π
    else 2 * π * uc2
  let phi_i := phi_o + dphi
  let wi : Vec3 := ⟨sinTheta_i, cosTheta_i * Real.cos phi_i, cosTheta_i * Real.sin phi_i⟩
  let tilt := fun (q : ℕ) => tiltedSinCos m.toHairBxDF sinTheta_o cosTheta_o q
  let pdf :=
    (∑ q : Fin 3,
      H.Mp cosTheta_i (tilt q.val).2 sinTheta_i (tilt q.val).1 (m.v q.castSucc) *
        apPdf q.castSucc * Np H dphi q.val m.s gamma_o gamma_o) +
    H.Mp cosTheta_i cosTheta_o sinTheta_i sinTheta_o (m.v 3) * apPdf 3 * (1 / (2 * π))
  some ⟨MorphoBSDF.f m wo wi mode, wi, pdf, BxDFFlags.GlossyReflTrans, 1⟩

/-- pbrt `SphericalTheta`: `arccos(clamp(w.z, -1, 1))`. -/
def SphericalTheta (w : Vec3) : ℝ := Real.arccos (max (-1) (min w.z 1))

/-- Modelled from the spec: the fixed monotonic reparameterization of the
polar angle onto the unit interval used by the measured model. -/
def theta2u (theta : ℝ) : ℝ := Real.sqrt (theta * (2 / π))

/-- Modelled from the spec: the fixed monotonic reparameterization of the
azimuth onto the unit interval used by the measured model. -/
def phi2u (phi : ℝ) : ℝ := phi / (2 * π) + 0.5

/-- Modelled from the spec: the conditioned piecewise-linear interpolant
capability contract consumed by the measured model (spec section 6),
together with the per-instance wavelength samples and isotropy flag. -/
structure MeasuredOps (n : ℕ) where
  vndfInvert : (ℝ × ℝ) → ℝ → ℝ → ((ℝ × ℝ) × ℝ)
  spectraEval : (ℝ × ℝ) → ℝ → ℝ → ℝ → ℝ
  ndfEval : (ℝ × ℝ) → ℝ
  sigmaEval : (ℝ × ℝ) → ℝ
  lambda : Fin n → ℝ
  isotropic : Bool

/-- `MeasuredBxDF::f` (src/pbrt/bxdfs.cpp lines 1332-1366). -/
def MeasuredBxDF.f {n : ℕ} (ops : MeasuredOps n) (wo0 wi0 : Vec3)
    (_mode : TransportMode) : Spectrum n :=
  if ¬ SameHemisphereP wo0 wi0 then constSpec n 0
  else
    let wo := if wo0.z < 0 then Vec3.neg wo0 else wo0
    let wi := if wo0.z < 0 then Vec3.neg wi0 else wi0
    let wm0 := Vec3.add wi wo
    if Vec3.lengthSq wm0 = 0 then constSpec n 0
    else
      let wm := Vec3.normalize wm0
      let theta_o := SphericalTheta wo
      let phi_o := atan2 wo.y wo.x
      let theta_m := SphericalTheta wm
      let phi_m := atan2 wm.y wm.x
      let u_wo := (theta2u theta_o, phi2u phi_o)
      let u_wm1 := (theta2u theta_m,
        phi2u (if ops.isotropic then phi_m - phi_o else phi_m))
      let u_wm := (u_wm1.1, u_wm1.2 - ⌊u_wm1.2⌋)
      let ui := (ops.vndfInvert u_wm phi_o theta_o).1
      fun i =>
        max 0 (ops.spectraEval ui phi_o theta_o (ops.lambda i)) *
          ops.ndfEval u_wm / (4 * ops.sigmaEval u_wo * CosTheta wi)

end

/-! ## Tensor file loader (src/pbrt/bxdfs.cpp lines 913-1191)

The byte-level loader is embedded over `List ℕ` (one entry per byte).
`fread`/`fseek` failures are exactly the out-of-bounds reads of
`readAt`. -/

/-- The 12 bytes compared against the header: `"tensor_file"` with its
terminating NUL. -/
def magicBytes : List ℕ := [116, 101, 110, 115, 111, 114, 95, 102, 105, 108, 101, 0]

/-- Little-endian decoding of a byte list. -/
def decodeLE : List ℕ → ℕ
  | [] => 0
  | b :: bs => b + 256 * decodeLE bs

/-- Little-endian encoding of `v` into exactly `k` bytes. -/
def encodeLE : ℕ → ℕ → List ℕ
  | 0, _ => []
  | k + 1, v => v % 256 :: encodeLE k (v / 256)

/-- Read `cnt` bytes at absolute position `pos`; `none` models a
failed `fread`/`fseek` (reading past end of file). -/
def readAt (file : List ℕ) (pos cnt : ℕ) : Option (List ℕ) :=
  if pos + cnt ≤ file.length then some ((file.drop pos).take cnt) else none

/-- `readAt` wrapped with the loader's error message. -/
def readE (file : List ℕ) (pos cnt : ℕ) (what : String) : Except String (List ℕ) :=
  match readAt file pos cnt with
  | some bs => .ok bs
  | none => .error ("Unable to read " ++ what ++ ".")

/-- `Tensor::Field`: dtype code, absolute byte offset, shape, payload. -/
structure TField where
  dtype : ℕ
  offset : ℕ
  shape : List ℕ
  data : List ℕ
deriving DecidableEq

/-- `type_size` (src/pbrt/bxdfs.cpp lines 1018-1060): byte size per dtype
code (1..11); 0 for invalid codes. -/
def typeSize (t : ℕ) : ℕ :=
  match t with
  | 1 => 1 | 2 => 1
  | 3 => 2 | 4 => 2
  | 5 => 4 | 6 => 4
  | 7 => 8 | 8 => 8
  | 9 => 2 | 10 => 4 | 11 => 8
  | _ => 0

/-- Read `k` consecutive 8-byte dimension sizes starting at `pos`. -/
def readShapeE (file : List ℕ) : ℕ → ℕ → Except String (List ℕ)
  | _pos, 0 => .ok []
  | pos, k + 1 => do
    let bs ← readE file pos 8 "size_value"
    let rest ← readShapeE file (pos + 8) k
    .ok (decodeLE bs :: rest)

/-- One iteration of the field loop of `Tensor::Tensor` (lines
1103-1138): header items read in stream order, dtype validated, then the
payload fetched from the header-declared absolute offset with size
`type_size(dtype) * product(shape)`.  Returns the parsed field and the
next header position. -/
def readField (file : List ℕ) (pos : ℕ) : Except String ((List ℕ × TField) × ℕ) := do
  let nlB ← readE file pos 2 "name_length"
  let nlv := decodeLE nlB
  let nm ← readE file (pos + 2) nlv "name"
  let ndB ← readE file (pos + 2 + nlv) 2 "ndim"
  let dtB ← readE file (pos + 4 + nlv) 1 "dtype"
  let offB ← readE file (pos + 5 + nlv) 8 "offset"
  let dtv := decodeLE dtB
  if dtv = 0 ∨ 11 < dtv then .error "Invalid tensor file: unknown type."
  else do
    let ndv := decodeLE ndB
    let shape ← readShapeE file (pos + 13 + nlv) ndv
    let total := typeSize dtv * shape.prod
    let off := decodeLE offB
    let dat ← readE file off total "tensor data"
    .ok ((nm, ⟨dtv, off, shape, dat⟩), pos + 13 + nlv + 8 * ndv)

/-- The field loop: parse `k` fields starting at header position `pos`. -/
def parseFields (file : List ℕ) : ℕ → ℕ → Except String (List (List ℕ × TField))
  | _pos, 0 => .ok []
  | pos, k + 1 => do
    let r ← readField file pos
    let rest ← parseFields file r.2 k
    .ok (r.1 :: rest)

/-- `Tensor::Tensor` (src/pbrt/bxdfs.cpp lines 1062-1144): size check,
magic, version `1.0`, field count, then the field loop. -/
def Tensor.load (file : List ℕ) : Except String (List (List ℕ × TField)) :=
  if file.length < 12 + 2 + 4 then .error "Invalid tensor file: too small, truncated?"
  else
    let hdr := file.take 12
    let ver := (file.drop 12).take 2
    let nf := decodeLE ((file.drop 14).take 4)
    if hdr ≠ magicBytes then .error "Invalid tensor file: invalid header."
    else if ver ≠ [1, 0] then .error "Invalid tensor file: unknown file version."
    else parseFields file 18 nf

/-! Spec-side encoder for well-formed tensor files (spec section 6
layout), used to state that every well-formed file is accepted. -/

/-- A field to be serialized: name bytes, dtype code, shape, payload. -/
structure RawField where
  name : List ℕ
  dtype : ℕ
  shape : List ℕ
  payload : List ℕ
deriving DecidableEq

/-- Byte length of one serialized field descriptor. -/
def fieldDescLen (nm : List ℕ) (rank : ℕ) : ℕ := 13 + nm.length + 8 * rank

/-- One serialized field descriptor (spec section 6: name length, name,
rank, dtype, absolute offset, dimension sizes). -/
def fieldDesc (nm : List ℕ) (dt off : ℕ) (shape : List ℕ) : List ℕ :=
  encodeLE 2 nm.length ++ nm ++ encodeLE 2 shape.length ++ encodeLE 1 dt ++
    encodeLE 8 off ++ (shape.map (encodeLE 8)).flatten

/-- Serialize the descriptor table, assigning consecutive payload
offsets starting at `base`. -/
def encodeDescs (base : ℕ) : List RawField → List ℕ
  | [] => []
  | f :: fs => fieldDesc f.name f.dtype base f.shape ++
      encodeDescs (base + f.payload.length) fs

/-- Concatenated payload blob. -/
def encodePayloads (fs : List RawField) : List ℕ := (fs.map RawField.payload).flatten

/-- Total descriptor-table length. -/
def descsLen (fs : List RawField) : ℕ :=
  (fs.map fun f => fieldDescLen f.name f.shape.length).sum

/-- A complete well-formed tensor file: header, version 1.0, field
count, descriptor table, payload blob (payloads packed after the
header). -/
def encodeTensor (fs : List RawField) : List ℕ :=
  magicBytes ++ [1, 0] ++ encodeLE 4 fs.length ++
    encodeDescs (18 + descsLen fs) fs ++ encodePayloads fs

/-- The fields the loader is expected to produce for an encoded file. -/
def expectedFields (base : ℕ) : List RawField → List (List ℕ × TField)
  | [] => []
  | f :: fs => (f.name, ⟨f.dtype, base, f.shape, f.payload⟩) ::
      expectedFields (base + f.payload.length) fs

/-- Well-formedness of one field to be serialized: representable name
length and rank, valid dtype code, payload sized as
`product(shape) * dtype-size`, dimension sizes representable in 8
bytes. -/
def RawField.wf (f : RawField) : Prop :=
  f.name.length < 65536 ∧ f.shape.length < 65536 ∧ (∀ d ∈ f.shape, d < 2 ^ 64) ∧
    1 ≤ f.dtype ∧ f.dtype ≤ 11 ∧ f.payload.length = typeSize f.dtype * f.shape.prod

/-! ## Measured-data resource builder (src/pbrt/bxdfs.cpp lines
1193-1329) -/

/-- Lookup in the loaded tensor's field map (`Tensor::has_field` /
`Tensor::field`). -/
def lookupField (td : List (String × TField)) (nm : String) : Option TField :=
  (td.find? fun kv => kv.1 == nm).map Prod.snd

/-- Outcome of building the measured-data resource: a fatal abort
(`CHECK` failure or `ErrorExit`), a null resource with a reported
diagnostic (`Error` + `return nullptr`), or a built resource. -/
inductive CreateResult (R : Type)
  | fatal (msg : String)
  | nullResource
  | ok (r : R)
deriving DecidableEq

/-- The built resource: the validated arrays it holds interpolants over,
plus the isotropy flag. -/
structure MeasuredBxDFData where
  theta_i : TField
  phi_i : TField
  ndf : TField
  sigma : TField
  vndf : TField
  spectra : TField
  luminance : TField
  wavelengths : TField
  isotropic : Bool
deriving DecidableEq

/-- `Tensor::field` (lines 1151-1156): `CHECK`s that the field exists —
a missing field is a fatal assertion failure, not a recoverable error. -/
def fieldOrFatal (td : List (String × TField)) (nm : String) : Except String TField :=
  match lookupField td nm with
  | some f => .ok f
  | none => .error ("CHECK failed in Tensor::field: " ++ nm)

/-- The schema validation of `MeasuredBxDFData::Create` (lines
1235-1264): the exact dtype/rank/cross-shape conjunction (dtype code 1 is
UInt8, 10 is Float32). -/
def measuredSchemaOK (theta_i phi_i ndf sigma vndf spectra luminance wavelengths
    description jacobian : TField) : Prop :=
  description.shape.length = 1 ∧ description.dtype = 1 ∧
  theta_i.shape.length = 1 ∧ theta_i.dtype = 10 ∧
  phi_i.shape.length = 1 ∧ phi_i.dtype = 10 ∧
  wavelengths.shape.length = 1 ∧ wavelengths.dtype = 10 ∧
  ndf.shape.length = 2 ∧ ndf.dtype = 10 ∧
  sigma.shape.length = 2 ∧ sigma.dtype = 10 ∧
  vndf.shape.length = 4 ∧ vndf.dtype = 10 ∧
  vndf.shape.headD 0 = phi_i.shape.headD 0 ∧
  vndf.shape.getD 1 0 = theta_i.shape.headD 0 ∧
  luminance.shape.length = 4 ∧ luminance.dtype = 10 ∧
  luminance.shape.headD 0 = phi_i.shape.headD 0 ∧
  luminance.shape.getD 1 0 = theta_i.shape.headD 0 ∧
  luminance.shape.getD 2 0 = luminance.shape.getD 3 0 ∧
  spectra.dtype = 10 ∧ spectra.shape.length = 5 ∧
  spectra.shape.headD 0 = phi_i.shape.headD 0 ∧
  spectra.shape.getD 1 0 = theta_i.shape.headD 0 ∧
  spectra.shape.getD 2 0 = wavelengths.shape.headD 0 ∧
  spectra.shape.getD 3 0 = spectra.shape.getD 4 0 ∧
  luminance.shape.getD 2 0 = spectra.shape.getD 3 0 ∧
  luminance.shape.getD 3 0 = spectra.shape.getD 4 0 ∧
  jacobian.shape.length = 1 ∧ jacobian.shape.headD 0 = 1 ∧ jacobian.dtype = 1

instance (t p nd sg v sp l w d j : TField) :
    Decidable (measuredSchemaOK t p nd sg v sp l w d j) := by
  unfold measuredSchemaOK; infer_instance

/-- `MeasuredBxDFData::Create` (src/pbrt/bxdfs.cpp lines 1222-1321).
All ten fields are fetched through `Tensor::field` (fatal if missing),
then validated (null resource with diagnostic on mismatch), then the
anisotropic reduction factor is checked (fatal if not 1; `red` abstracts
the float computation on the `phi_i` payload). -/
def MeasuredBxDFData.Create (red : TField → ℤ) (td : List (String × TField)) :
    CreateResult MeasuredBxDFData :=
  match (do
      let theta_i ← fieldOrFatal td "theta_i"
      let phi_i ← fieldOrFatal td "phi_i"
      let ndf ← fieldOrFatal td "ndf"
      let sigma ← fieldOrFatal td "sigma"
      let vndf ← fieldOrFatal td "vndf"
      let spectra ← fieldOrFatal td "spectra"
      let luminance ← fieldOrFatal td "luminance"
      let wavelengths ← fieldOrFatal td "wavelengths"
      let description ← fieldOrFatal td "description"
      let jacobian ← fieldOrFatal td "jacobian"
      .ok (theta_i, phi_i, ndf, sigma, vndf, spectra, luminance, wavelengths,
        description, jacobian) :
      Except String (TField × TField × TField × TField × TField × TField ×
        TField × TField × TField × TField)) with
  | .error m => .fatal m
  | .ok (theta_i, phi_i, ndf, sigma, vndf, spectra, luminance, wavelengths,
      description, jacobian) =>
    if measuredSchemaOK theta_i phi_i ndf sigma vndf spectra luminance
        wavelengths description jacobian then
      let isotropic := phi_i.shape.headD 0 ≤ 2
      if ¬ isotropic ∧ red phi_i ≠ 1 then
        .fatal "reduction (!= 1) not supported"
      else
        .ok ⟨theta_i, phi_i, ndf, sigma, vndf, spectra, luminance, wavelengths,
          decide isotropic⟩
    else .nullResource

/-! ## Process-wide resource cache (src/pbrt/bxdfs.cpp lines 1323-1329)

`BRDFDataFromFile` guards a bare `static std::map` with no
synchronization.  The sequential semantics is `cachedLoad`; the
concurrent first access of two threads is modelled by the explicit
interleaving machine below, whose atomic steps are the map lookup and
the build-plus-insert of the C++ source. -/

/-- Sequential cache state: the map entries (resource ids) and the
number of builds performed so far. -/
structure CacheState where
  entries : List (String × ℕ)
  builds : ℕ
deriving DecidableEq

/-- `MeasuredBxDF::BRDFDataFromFile`, sequential semantics: if the path
is absent, build (the new resource gets a fresh id) and insert; then
return the entry for the path. -/
def cachedLoad (st : CacheState) (fname : String) : CacheState × ℕ :=
  match st.entries.find? (fun kv => kv.1 == fname) with
  | some kv => (st, kv.2)
  | none =>
    let r := st.builds
    (⟨st.entries ++ [(fname, r)], st.builds + 1⟩, r)

/-- The full mixture density computed at the end of
`HairBxDF::Sample_f` as a function of the sampled `sin theta_i` and
azimuthal offset `dphi` (same per-lobe expression as the inner loop of
`f`, weighted by `ApPDF`). -/
noncomputable def hairPdfFormula {n : ℕ} (st : HairBxDF n) (H : HairHelpers)
    (wo : Vec3) (sinTheta_i dphi : ℝ) : ℝ :=
  let sinTheta_o := wo.x
  let cosTheta_o := SafeSqrt (1 - sinTheta_o ^ 2)
  let gamma_o := SafeASin st.h
  let cosTheta_i := SafeSqrt (1 - sinTheta_i ^ 2)
  let etap := SafeSqrt (st.eta ^ 2 - sinTheta_o ^ 2) / cosTheta_o
  let sinGamma_t := st.h / etap
  let gamma_t := SafeASin sinGamma_t
  let apPDF := HairBxDF.ApPDF st cosTheta_o
  let tilt := fun (q : ℕ) => tiltedSinCos st sinTheta_o cosTheta_o q
  (∑ q : Fin 3,
    H.Mp cosTheta_i |(tilt q.val).2| sinTheta_i (tilt q.val).1 (st.v q.castSucc) *
      apPDF q.castSucc * Np H dphi q.val st.s gamma_o gamma_t) +
  H.Mp cosTheta_i cosTheta_o sinTheta_i sinTheta_o (st.v 3) * apPDF 3 * (1 / (2 * π))

/-- Concrete hair-helper instance: unit lobe shapes (all helper values
1), zero phase shift. -/
noncomputable def constHelpers : HairHelpers :=
  ⟨fun _ _ _ _ _ => 1, fun _ _ _ => 0, fun _ _ _ _ => 1, fun _ _ _ _ => 0⟩

/-- Concrete hair-helper instance: unit lobe shape, phase shift equal to
the refracted impact angle, trimmed logistic returning its evaluation
point. -/
noncomputable def idHelpers : HairHelpers :=
  ⟨fun _ _ _ _ _ => 1, fun _ _ gt => gt, fun x _ _ _ => x, fun _ _ _ _ => 0⟩

/-- Concrete hair state: `h = 0`, `eta = 3/2`, no absorption, unit
variances, zero tilt. -/
noncomputable def hairSt : HairBxDF 1 :=
  ⟨0, 3 / 2, fun _ => 0, 0, 0, fun _ => 1, 0, fun _ => 0, fun _ => 1⟩

/-- Concrete experimental-variant state: `h = 1/2`, `eta = 3/2`, no
absorption, constant BRDF table. -/
noncomputable def morphoSt : MorphoBSDF 1 :=
  ⟨⟨1 / 2, 3 / 2, fun _ => 0, 0, 0, fun _ => 1, 0, fun _ => 0, fun _ => 1⟩, 0,
    fun _ _ _ => 5 / 2⟩

/-- The common lobe sum appearing in the concrete hair evaluation of the
reciprocity counterexample. -/
noncomputable def hairCval : ℝ :=
  1 / 25 + (24 / 25) ^ 2 + (24 / 25) ^ 2 * (1 / 25) +
    (24 / 25) ^ 2 * (1 / 25) * (1 / 25) / (24 / 25) / (2 * π)

/-- Concrete rough dielectric state: `eta = 2`, unit microfacet density
and masking-shadowing, not effectively smooth. -/
noncomputable def dielC : DielectricBxDF :=
  ⟨2, ⟨fun _ => 1, fun _ _ => 1, fun _ _ => 0, fun _ _ => ⟨0, 0, 0⟩, false⟩⟩

/-- Per-thread progress through `BRDFDataFromFile`: about to test the
map, tested (with result), or done. -/
inductive TPhase
  | start
  | checked (found : Bool)
  | done (r : ℕ)
deriving DecidableEq

/-- One atomic step of one thread running `BRDFDataFromFile fname`
against the shared cache: step 1 is the `find` test, step 2 is
build-plus-insert (only when the test missed) followed by the returning
lookup. -/
def threadStep (sh : CacheState) (t : TPhase) (fname : String) : CacheState × TPhase :=
  match t with
  | .start => (sh, .checked (sh.entries.any (fun kv => kv.1 == fname)))
  | .checked true =>
    (sh, .done (((sh.entries.find? (fun kv => kv.1 == fname)).map Prod.snd).getD 0))
  | .checked false =>
    let r := sh.builds
    (⟨sh.entries ++ [(fname, r)], sh.builds + 1⟩, .done r)
  | .done r => (sh, .done r)

/-- Run two threads, both calling `BRDFDataFromFile` on the same path,
under a given interleaving (`true` steps thread 1, `false` thread 2). -/
def runRace (fname : String) : List Bool → CacheState × TPhase × TPhase →
    CacheState × TPhase × TPhase
  | [], st => st
  | b :: rest, (sh, t1, t2) =>
    if b then
      let r := threadStep sh t1 fname
      runRace fname rest (r.1, r.2, t2)
    else
      let r := threadStep sh t2 fname
      runRace fname rest (r.1, t1, r.2)

/-! ## Helper lemmas -/

theorem Vec3.dot_comm (a b : Vec3) : Vec3.dot a b = Vec3.dot b a := by
  unfold Vec3.dot; ring

theorem Vec3.add_comm' (a b : Vec3) : Vec3.add a b = Vec3.add b a := by
  unfold Vec3.add; simp [Vec3.ext_iff2]; constructor <;> [skip; constructor] <;> ring

theorem Vec3.smul_one (a : Vec3) : Vec3.smul 1 a = a := by
  unfold Vec3.smul; simp [Vec3.ext_iff2]

theorem Vec3.dot_add_right (a b c : Vec3) :
    Vec3.dot a (Vec3.add b c) = Vec3.dot a b + Vec3.dot a c := by
  unfold Vec3.dot Vec3.add; ring

theorem Vec3.dot_smul_right (c : ℝ) (a b : Vec3) :
    Vec3.dot a (Vec3.smul c b) = c * Vec3.dot a b := by
  unfold Vec3.dot Vec3.smul; ring

theorem Vec3.dot_neg_right (a b : Vec3) :
    Vec3.dot a (Vec3.neg b) = -Vec3.dot a b := by
  unfold Vec3.dot Vec3.neg; ring

theorem Vec3.neg_add (a b : Vec3) :
    Vec3.add (Vec3.neg a) (Vec3.neg b) = Vec3.neg (Vec3.add a b) := by
  unfold Vec3.add Vec3.neg; simp [Vec3.ext_iff2]; constructor <;> [skip; constructor] <;> ring

theorem Vec3.lengthSq_neg (a : Vec3) : Vec3.lengthSq (Vec3.neg a) = Vec3.lengthSq a := by
  unfold Vec3.lengthSq Vec3.dot Vec3.neg; ring

/-! ## C10: the hair model ignores the sample filter -/

/-- C10: `HairBxDF::Sample_f` and `HairBxDF::PDF` never consult the
sample filter: any two filter values (including the empty one) give
identical results, and `Sample_f` always returns an engaged sample. -/
theorem hair_flags_independent {n : ℕ} (st : HairBxDF n) (H : HairHelpers)
    (wo wi : Vec3) (uc : ℝ) (u : ℝ × ℝ) (mode : TransportMode)
    (fl fl2 : BxDFReflTransFlags) :
    HairBxDF.Sample_f st H wo uc u mode fl = HairBxDF.Sample_f st H wo uc u mode fl2 ∧
    (HairBxDF.Sample_f st H wo uc u mode fl).isSome = true ∧
    HairBxDF.PDF st H wo wi mode fl = HairBxDF.PDF st H wo wi mode fl2 :=
  ⟨rfl, rfl, rfl⟩

/-! ## C9: the measured-data cache -/

/-- C9, counterexample: the cache of `BRDFDataFromFile` is a bare map
with no synchronization; interleaving two first accesses to the same
path (both threads test before either inserts) performs TWO builds,
refuting the claimed at-most-one-build guarantee under concurrent first
access. -/
theorem cache_race_two_builds :
    (runRace "brdf.bin" [true, false, true, false]
      (⟨[], 0⟩, TPhase.start, TPhase.start)).1.builds = 2 := by
  decide

theorem find?_append_of_none {α : Type} (p : α → Bool) (l1 l2 : List α)
    (h : l1.find? p = none) : (l1 ++ l2).find? p = l2.find? p := by
  induction l1 with
  | nil => simp
  | cons a l ih =>
    rw [List.find?_cons] at h
    rcases hpa : p a with hv | hv
    · rw [List.cons_append, List.find?_cons, hpa]
      exact ih (by rwa [hpa] at h)
    · rw [hpa] at h; exact absurd h (by simp)

/-- C9, amended: under sequential execution the cache memoizes — a
repeated request for the same path performs no further build and
returns the previously built resource, each call performs at most one
build, and the cache never removes an entry. -/
theorem cache_sequential_memoization (st : CacheState) (fname : String) :
    cachedLoad (cachedLoad st fname).1 fname =
      ((cachedLoad st fname).1, (cachedLoad st fname).2) ∧
    (cachedLoad st fname).1.builds ≤ st.builds + 1 ∧
    (∀ kv ∈ st.entries, kv ∈ (cachedLoad st fname).1.entries) := by
  unfold cachedLoad
  rcases hf : st.entries.find? (fun kv => kv.1 == fname) with - | kv
  · simp only [hf]
    rw [find?_append_of_none _ _ _ hf]
    simp [List.find?]
    exact fun a b hmem => Or.inl hmem
  · simp [hf]

/-! ## C2: measured-BRDF schema rejection -/

/-- C2, counterexample: a successfully loaded tensor file that contains
every required field EXCEPT `vndf` does not yield a null resource — the
builder dies in the fatal `CHECK` of `Tensor::field`, refuting the
claim that a missing required field is reported non-fatally. -/
theorem measured_missing_vndf_fatal :
    MeasuredBxDFData.Create (fun _ => 1)
      [("theta_i", ⟨10, 0, [1], []⟩), ("phi_i", ⟨10, 0, [1], []⟩),
       ("ndf", ⟨10, 0, [1, 1], []⟩), ("sigma", ⟨10, 0, [1, 1], []⟩),
       ("spectra", ⟨10, 0, [1, 1, 1, 1, 1], []⟩),
       ("luminance", ⟨10, 0, [1, 1, 1, 1], []⟩),
       ("wavelengths", ⟨10, 0, [1], []⟩), ("description", ⟨1, 0, [1], []⟩),
       ("jacobian", ⟨1, 0, [1], []⟩)] =
    CreateResult.fatal "CHECK failed in Tensor::field: vndf" := by
  rfl

/-- C2, amended: when every required field is present but the
dtype/rank/cross-shape validation fails, `MeasuredBxDFData::Create`
yields the null resource with its reported diagnostic (and neither
crashes nor aborts). -/
theorem measured_schema_mismatch_null (red : TField → ℤ)
    (td : List (String × TField)) (t p nd sg v sp l w d j : TField)
    (h1 : lookupField td "theta_i" = some t)
    (h2 : lookupField td "phi_i" = some p)
    (h3 : lookupField td "ndf" = some nd)
    (h4 : lookupField td "sigma" = some sg)
    (h5 : lookupField td "vndf" = some v)
    (h6 : lookupField td "spectra" = some sp)
    (h7 : lookupField td "luminance" = some l)
    (h8 : lookupField td "wavelengths" = some w)
    (h9 : lookupField td "description" = some d)
    (h10 : lookupField td "jacobian" = some j)
    (hbad : ¬ measuredSchemaOK t p nd sg v sp l w d j) :
    MeasuredBxDFData.Create red td = CreateResult.nullResource := by
  unfold MeasuredBxDFData.Create fieldOrFatal
  rw [h1, h2, h3, h4, h5, h6, h7, h8, h9, h10]
  simp only [bind, Except.bind]
  simp [hbad]

/-- Witness for C2's amended theorem: a concrete file with all ten
fields present but `spectra` of rank 4 is rejected with a null
resource. -/
theorem measured_schema_mismatch_null_witness :
    MeasuredBxDFData.Create (fun _ => 1)
      [("theta_i", ⟨10, 0, [1], []⟩), ("phi_i", ⟨10, 0, [1], []⟩),
       ("ndf", ⟨10, 0, [1, 1], []⟩), ("sigma", ⟨10, 0, [1, 1], []⟩),
       ("vndf", ⟨10, 0, [1, 1, 1, 1], []⟩),
       ("spectra", ⟨10, 0, [1, 1, 1, 1], []⟩),
       ("luminance", ⟨10, 0, [1, 1, 1, 1], []⟩),
       ("wavelengths", ⟨10, 0, [1], []⟩), ("description", ⟨1, 0, [1], []⟩),
       ("jacobian", ⟨1, 0, [1], []⟩)] = CreateResult.nullResource :=
  measured_schema_mismatch_null (fun _ => 1) _ _ _ _ _ _ _ _ _ _ _
    rfl rfl rfl rfl rfl rfl rfl rfl rfl rfl (by decide)

/-! ## C8: the experimental variant's azimuthal-phase arguments -/

/-- C8, amended (sample path): `MorphoBSDF::Sample_f` is exactly the
claim's description of the sample path — `Phi` and `Np` are called with
both impact-angle arguments set to the incident impact angle
`gamma_o`. -/
theorem morpho_sample_gamma_o_only {n : ℕ} (m : MorphoBSDF n) (H : HairHelpers)
    (wo : Vec3) (uc : ℝ) (u : ℝ × ℝ) (mode : TransportMode)
    (fl : BxDFReflTransFlags) :
    MorphoBSDF.Sample_f m H wo uc u mode fl =
      MorphoBSDF.SampleBothGammaO m H wo uc u mode fl := rfl

/-! ## Fresnel and attenuation bounds -/

theorem sq_div_add_le_one (a b : ℝ) (ha : 0 ≤ a) (hb : 0 ≤ b) :
    ((a - b) / (a + b)) ^ 2 ≤ 1 := by
  rcases eq_or_lt_of_le (add_nonneg ha hb) with h | h
  · rw [← h, div_zero]; norm_num
  · rw [div_pow, div_le_one (by positivity)]
    nlinarith

theorem sq_div_add_lt_one (a b : ℝ) (ha : 0 < a) (hb : 0 < b) :
    ((a - b) / (a + b)) ^ 2 < 1 := by
  rw [div_pow, div_lt_one (by positivity)]
  nlinarith

theorem frCore_nonneg (c e : ℝ) : 0 ≤ frCore c e := by
  simp only [frCore]
  split_ifs
  · norm_num
  · positivity

theorem frCore_le_one (c e : ℝ) (hc : 0 ≤ c) (he : 0 < e) : frCore c e ≤ 1 := by
  simp only [frCore]
  split_ifs
  · norm_num
  · have h1 := sq_div_add_le_one (e * c) (Real.sqrt (1 - (1 - c ^ 2) / e ^ 2))
      (by positivity) (Real.sqrt_nonneg _)
    have h2 := sq_div_add_le_one c (e * Real.sqrt (1 - (1 - c ^ 2) / e ^ 2))
      hc (by positivity)
    linarith

theorem frCore_lt_one (c e : ℝ) (hc : 0 < c) (_hc1 : c ≤ 1) (he : 1 < e) :
    frCore c e < 1 := by
  simp only [frCore]
  have hs2 : (1 - c ^ 2) / e ^ 2 < 1 := by
    rw [div_lt_one (by positivity)]
    nlinarith
  rw [if_neg (not_le.mpr hs2)]
  have hct : 0 < Real.sqrt (1 - (1 - c ^ 2) / e ^ 2) :=
    Real.sqrt_pos.mpr (by linarith)
  have h1 := sq_div_add_lt_one (e * c) (Real.sqrt (1 - (1 - c ^ 2) / e ^ 2))
    (by positivity) hct
  have h2 := sq_div_add_lt_one c (e * Real.sqrt (1 - (1 - c ^ 2) / e ^ 2))
    hc (by positivity)
  linarith

theorem FrDielectric_nonneg (x eta : ℝ) : 0 ≤ FrDielectric x eta := by
  simp only [FrDielectric]
  split_ifs <;> exact frCore_nonneg _ _

theorem FrDielectric_le_one (x eta : ℝ) (h : 0 < eta) : FrDielectric x eta ≤ 1 := by
  simp only [FrDielectric]
  split_ifs with hc
  · exact frCore_le_one _ _ (by linarith) (by positivity)
  · exact frCore_le_one _ _ (not_lt.mp hc) h

theorem FrDielectric_lt_one (x eta : ℝ) (hx : 0 < x) (hx1 : x ≤ 1) (he : 1 < eta) :
    FrDielectric x eta < 1 := by
  have hc0 : max (-1) (min x 1) = x := by
    rw [min_eq_left hx1, max_eq_right (by linarith)]
  simp only [FrDielectric, hc0]
  rw [if_neg (not_lt.mpr hx.le)]
  exact frCore_lt_one _ _ hx hx1 he

theorem Spectrum.avg_nonneg {n : ℕ} (s : Spectrum n) (h : ∀ j, 0 ≤ s j) :
    0 ≤ s.avg :=
  div_nonneg (Finset.sum_nonneg fun i _ => h i) (Nat.cast_nonneg n)

theorem Spectrum.avg_pos {n : ℕ} (hn : 0 < n) (s : Spectrum n) (h : ∀ j, 0 < s j) :
    0 < s.avg := by
  have : Nonempty (Fin n) := ⟨⟨0, hn⟩⟩
  exact div_pos (Finset.sum_pos (fun i _ => h i) Finset.univ_nonempty)
    (by exact_mod_cast hn)

theorem constSpec_avg (n : ℕ) (hn : 0 < n) (c : ℝ) : (constSpec n c).avg = c := by
  unfold constSpec Spectrum.avg
  rw [Finset.sum_const, Finset.card_univ, Fintype.card_fin]
  field_simp

theorem Ap_nonneg (n : ℕ) (c eta hh : ℝ) (T : Spectrum n) (heta : 0 < eta)
    (hT1 : ∀ j, 0 < T j) (hT2 : ∀ j, T j ≤ 1) (i : Fin 4) (j : Fin n) :
    0 ≤ Ap n c eta hh T i j := by
  have hf0 := FrDielectric_nonneg (c * SafeSqrt (1 - hh ^ 2)) eta
  have hf1 := FrDielectric_le_one (c * SafeSqrt (1 - hh ^ 2)) eta heta
  set f := FrDielectric (c * SafeSqrt (1 - hh ^ 2)) eta with hfdef
  fin_cases i <;>
    simp only [Ap, ← hfdef, Matrix.cons_val_zero, Matrix.cons_val_one,
      Matrix.head_cons, Matrix.cons_val_two, Matrix.tail_cons, Matrix.cons_val_three,
      constSpec, Fin.isValue]
  · exact hf0
  · exact mul_nonneg (sq_nonneg _) (hT1 j).le
  · exact mul_nonneg (mul_nonneg (sq_nonneg _) (hT1 j).le)
      (mul_nonneg (hT1 j).le hf0)
  · refine div_nonneg (mul_nonneg (mul_nonneg (mul_nonneg (sq_nonneg _)
      (hT1 j).le) (mul_nonneg (hT1 j).le hf0)) (mul_nonneg hf0 (hT1 j).le)) ?_
    nlinarith [hT1 j, hT2 j]

theorem Ap_one_pos (n : ℕ) (c eta hh : ℝ) (T : Spectrum n)
    (hT1 : ∀ j, 0 < T j) (hflt : FrDielectric (c * SafeSqrt (1 - hh ^ 2)) eta < 1)
    (j : Fin n) : 0 < Ap n c eta hh T 1 j := by
  set f := FrDielectric (c * SafeSqrt (1 - hh ^ 2)) eta with hfdef
  simp only [Ap, ← hfdef, Matrix.cons_val_one, Matrix.head_cons]
  have h2 : 0 < (1 - f) ^ 2 := pow_pos (by linarith) 2
  exact mul_pos h2 (hT1 j)

theorem SafeSqrt_nonneg (x : ℝ) : 0 ≤ SafeSqrt x := Real.sqrt_nonneg _

theorem exp_neg_sigma_q_le_one (s x y : ℝ) (hs : 0 ≤ s) :
    Real.exp (-s * (2 * SafeSqrt x / SafeSqrt y)) ≤ 1 := by
  rw [Real.exp_le_one_iff]
  have h := div_nonneg (mul_nonneg (by norm_num : (0:ℝ) ≤ 2) (SafeSqrt_nonneg x))
    (SafeSqrt_nonneg y)
  nlinarith

theorem apOf_nonneg {n : ℕ} (st : HairBxDF n) (heta : 0 < st.eta)
    (hs : ∀ j, 0 ≤ st.sigma_a j) (c : ℝ) (i : Fin 4) (j : Fin n) :
    0 ≤ HairBxDF.apOf st c i j := by
  simp only [HairBxDF.apOf]
  exact Ap_nonneg n c st.eta st.h _ heta (fun _ => Real.exp_pos _)
    (fun j => exp_neg_sigma_q_le_one _ _ _ (hs j)) i j

theorem apOf_one_pos {n : ℕ} (st : HairBxDF n) (c : ℝ)
    (hflt : FrDielectric (c * SafeSqrt (1 - st.h ^ 2)) st.eta < 1) (j : Fin n) :
    0 < HairBxDF.apOf st c 1 j := by
  simp only [HairBxDF.apOf]
  exact Ap_one_pos n c st.eta st.h _ (fun _ => Real.exp_pos _) hflt j

theorem apOf_zero_eq {n : ℕ} (st : HairBxDF n) (c : ℝ) :
    HairBxDF.apOf st c 0 = constSpec n (FrDielectric (c * SafeSqrt (1 - st.h ^ 2)) st.eta) :=
  rfl

theorem apSumY_pos {n : ℕ} (st : HairBxDF n) (hn : 0 < n) (heta : 0 < st.eta)
    (hs : ∀ j, 0 ≤ st.sigma_a j) (c : ℝ) : 0 < HairBxDF.apSumY st c := by
  unfold HairBxDF.apSumY
  by_cases hf : FrDielectric (c * SafeSqrt (1 - st.h ^ 2)) st.eta < 1
  · refine Finset.sum_pos' (fun i _ => Spectrum.avg_nonneg _
      (fun j => apOf_nonneg st heta hs c i j)) ?_
    exact ⟨1, Finset.mem_univ _, Spectrum.avg_pos hn _ (fun j => apOf_one_pos st c hf j)⟩
  · refine Finset.sum_pos' (fun i _ => Spectrum.avg_nonneg _
      (fun j => apOf_nonneg st heta hs c i j)) ?_
    refine ⟨0, Finset.mem_univ _, ?_⟩
    have hf1 : FrDielectric (c * SafeSqrt (1 - st.h ^ 2)) st.eta = 1 :=
      le_antisymm (FrDielectric_le_one _ _ heta) (not_lt.mp hf)
    rw [apOf_zero_eq, constSpec_avg n hn, hf1]
    norm_num

/-! ## C5: the hair lobe-selection distribution is a partition of unity -/

/-- C5: for every `cos theta_o` and hair parameters with a positive
index and non-negative absorption, the entries of `ApPDF` are
non-negative, sum to 1, and each entry times the normalization sum
equals the wavelength-averaged magnitude of the corresponding `Ap`
term. -/
theorem hair_appdf_partition {n : ℕ} (st : HairBxDF n) (hn : 0 < n)
    (heta : 0 < st.eta) (hs : ∀ j, 0 ≤ st.sigma_a j) (cosTheta_o : ℝ) :
    (∀ i, 0 ≤ HairBxDF.ApPDF st cosTheta_o i) ∧
    (∑ i, HairBxDF.ApPDF st cosTheta_o i) = 1 ∧
    (∀ i, HairBxDF.ApPDF st cosTheta_o i * HairBxDF.apSumY st cosTheta_o =
      |(HairBxDF.apOf st cosTheta_o i).avg|) := by
  have hsum := apSumY_pos st hn heta hs cosTheta_o
  have havg : ∀ i, 0 ≤ (HairBxDF.apOf st cosTheta_o i).avg := fun i =>
    Spectrum.avg_nonneg _ (fun j => apOf_nonneg st heta hs cosTheta_o i j)
  refine ⟨fun i => div_nonneg (havg i) hsum.le, ?_, fun i => ?_⟩
  · unfold HairBxDF.ApPDF
    rw [← Finset.sum_div]
    rw [show (∑ i, (HairBxDF.apOf st cosTheta_o i).avg) =
      HairBxDF.apSumY st cosTheta_o from rfl]
    exact div_self hsum.ne'
  · unfold HairBxDF.ApPDF
    rw [div_mul_cancel₀ _ hsum.ne', abs_of_nonneg (havg i)]

/-- Witness for C5 at a concrete hair state and incident cosine. -/
theorem hair_appdf_partition_witness :
    (∀ i, 0 ≤ HairBxDF.ApPDF hairSt 1 i) ∧
    (∑ i, HairBxDF.ApPDF hairSt 1 i) = 1 ∧
    (∀ i, HairBxDF.ApPDF hairSt 1 i * HairBxDF.apSumY hairSt 1 =
      |(HairBxDF.apOf hairSt 1 i).avg|) :=
  hair_appdf_partition hairSt (by norm_num) (by norm_num [hairSt])
    (fun j => by norm_num [hairSt]) 1

theorem apPDF_first3_pos {n : ℕ} (st : HairBxDF n) (hn : 0 < n) (heta : 0 < st.eta)
    (hs : ∀ j, 0 ≤ st.sigma_a j) (c : ℝ)
    (hflt : FrDielectric (c * SafeSqrt (1 - st.h ^ 2)) st.eta < 1) :
    0 < HairBxDF.ApPDF st c 0 + HairBxDF.ApPDF st c 1 + HairBxDF.ApPDF st c 2 := by
  have hsum := apSumY_pos st hn heta hs c
  have h0 : 0 ≤ HairBxDF.ApPDF st c 0 := div_nonneg (Spectrum.avg_nonneg _
    (fun j => apOf_nonneg st heta hs c 0 j)) hsum.le
  have h2 : 0 ≤ HairBxDF.ApPDF st c 2 := div_nonneg (Spectrum.avg_nonneg _
    (fun j => apOf_nonneg st heta hs c 2 j)) hsum.le
  have h1 : 0 < HairBxDF.ApPDF st c 1 := div_pos
    (Spectrum.avg_pos hn _ (fun j => apOf_one_pos st c hflt j)) hsum
  linarith

theorem SafeSqrt_of_nonneg (x : ℝ) (h : 0 ≤ x) : SafeSqrt x = Real.sqrt x := by
  unfold SafeSqrt; rw [max_eq_right h]

theorem SafeSqrt_one : SafeSqrt 1 = 1 := by
  rw [SafeSqrt_of_nonneg _ (by norm_num), Real.sqrt_one]

theorem SafeASin_of_mem (x : ℝ) (h1 : -1 ≤ x) (h2 : x ≤ 1) :
    SafeASin x = Real.arcsin x := by
  unfold SafeASin; rw [min_eq_left h2, max_eq_right h1]

theorem avg_fin_one (s : Spectrum 1) : s.avg = s 0 := by
  unfold Spectrum.avg; simp

theorem wrapAngle_of_mem (t : ℝ) (h1 : -π ≤ t) (h2 : t < π) : wrapAngle t = t := by
  unfold wrapAngle
  have hz : ⌊(t + π) / (2 * π)⌋ = 0 := by
    rw [Int.floor_eq_zero_iff]
    constructor
    · exact div_nonneg (by linarith) (by positivity)
    · rw [div_lt_one (by positivity)]; linarith
  rw [hz]
  push_cast
  ring

theorem SafeSqrt_nine_quarter : SafeSqrt (9 / 4) = 3 / 2 := by
  rw [SafeSqrt_of_nonneg _ (by norm_num), show (9 / 4 : ℝ) = (3 / 2) ^ 2 by norm_num,
    Real.sqrt_sq (by norm_num : (0:ℝ) ≤ 3 / 2)]

theorem SafeASin_half : SafeASin (1 / 2) = Real.arcsin (1 / 2) :=
  SafeASin_of_mem _ (by norm_num) (by norm_num)

theorem SafeASin_third : SafeASin (1 / 3) = Real.arcsin (1 / 3) :=
  SafeASin_of_mem _ (by norm_num) (by norm_num)

theorem wrap_neg_arcsin_third :
    wrapAngle (-Real.arcsin (1 / 3)) = -Real.arcsin (1 / 3) := by
  have h0 : 0 ≤ Real.arcsin (1 / 3) := Real.arcsin_nonneg.mpr (by norm_num)
  have h1 : Real.arcsin (1 / 3) ≤ π / 2 := Real.arcsin_le_pi_div_two _
  exact wrapAngle_of_mem _ (by nlinarith [Real.pi_pos]) (by nlinarith [Real.pi_pos])

theorem wrap_neg_arcsin_half :
    wrapAngle (-Real.arcsin (1 / 2)) = -Real.arcsin (1 / 2) := by
  have h0 : 0 ≤ Real.arcsin (1 / 2) := Real.arcsin_nonneg.mpr (by norm_num)
  have h1 : Real.arcsin (1 / 2) ≤ π / 2 := Real.arcsin_le_pi_div_two _
  exact wrapAngle_of_mem _ (by nlinarith [Real.pi_pos]) (by nlinarith [Real.pi_pos])

theorem morpho_lookup_const (it ot : ℕ) :
    MorphoBSDF.LookupBRDFTable morphoSt it ot = constSpec 1 1 := by
  funext i
  simp only [MorphoBSDF.LookupBRDFTable, morphoSt, constSpec]
  norm_num

theorem castSucc_zero3 : (0 : Fin 3).castSucc = (0 : Fin 4) := rfl

theorem castSucc_one3 : (1 : Fin 3).castSucc = (1 : Fin 4) := rfl

theorem castSucc_two3 : (2 : Fin 3).castSucc = (2 : Fin 4) := rfl

theorem morpho_pdf_eval :
    MorphoBSDF.Pdf morphoSt idHelpers ⟨0, 1, 0⟩ ⟨0, 1, 0⟩ TransportMode.Radiance
      ⟨true, true⟩ =
    (HairBxDF.ApPDF morphoSt.toHairBxDF 1 0 + HairBxDF.ApPDF morphoSt.toHairBxDF 1 1 +
      HairBxDF.ApPDF morphoSt.toHairBxDF 1 2) * (-Real.arcsin (1 / 3)) +
    HairBxDF.ApPDF morphoSt.toHairBxDF 1 3 * (1 / (2 * π)) := by
  simp only [MorphoBSDF.Pdf, MorphoBSDF.ComputeApPdf, Np, idHelpers,
    morpho_lookup_const, sub_self, zero_sub]
  norm_num [constSpec_avg, SafeSqrt_one, SafeSqrt_nine_quarter, SafeASin_half,
    SafeASin_third, wrap_neg_arcsin_third, Fin.sum_univ_three, castSucc_zero3,
    castSucc_one3, castSucc_two3, morphoSt]
  ring

theorem morpho_pdfB_eval :
    MorphoBSDF.PdfBothGammaO morphoSt idHelpers ⟨0, 1, 0⟩ ⟨0, 1, 0⟩
      TransportMode.Radiance ⟨true, true⟩ =
    (HairBxDF.ApPDF morphoSt.toHairBxDF 1 0 + HairBxDF.ApPDF morphoSt.toHairBxDF 1 1 +
      HairBxDF.ApPDF morphoSt.toHairBxDF 1 2) * (-Real.arcsin (1 / 2)) +
    HairBxDF.ApPDF morphoSt.toHairBxDF 1 3 * (1 / (2 * π)) := by
  simp only [MorphoBSDF.PdfBothGammaO, MorphoBSDF.ComputeApPdf, Np, idHelpers,
    morpho_lookup_const, sub_self, zero_sub]
  norm_num [constSpec_avg, SafeSqrt_one, SafeSqrt_nine_quarter, SafeASin_half,
    SafeASin_third, wrap_neg_arcsin_half, Fin.sum_univ_three, castSucc_zero3,
    castSucc_one3, castSucc_two3, morphoSt]
  ring

/-- C8, counterexample: the density path of the experimental variant
does NOT call the azimuthal helper with both impact-angle arguments set
to `gamma_o`: at a concrete state and direction pair, `MorphoBSDF::Pdf`
(which passes `(gamma_o, gamma_t)` in its loop) differs from the
claim's both-`gamma_o` version. -/
theorem morpho_pdf_uses_gamma_t :
    MorphoBSDF.Pdf morphoSt idHelpers ⟨0, 1, 0⟩ ⟨0, 1, 0⟩ TransportMode.Radiance
      ⟨true, true⟩ ≠
    MorphoBSDF.PdfBothGammaO morphoSt idHelpers ⟨0, 1, 0⟩ ⟨0, 1, 0⟩
      TransportMode.Radiance ⟨true, true⟩ := by
  rw [morpho_pdf_eval, morpho_pdfB_eval]
  intro heq
  have hflt : FrDielectric (1 * SafeSqrt (1 - morphoSt.toHairBxDF.h ^ 2))
      morphoSt.toHairBxDF.eta < 1 := by
    have harg : (1:ℝ) * SafeSqrt (1 - morphoSt.toHairBxDF.h ^ 2) = Real.sqrt (3 / 4) := by
      rw [one_mul, show morphoSt.toHairBxDF.h = 1 / 2 from rfl,
        show (1 : ℝ) - (1 / 2) ^ 2 = 3 / 4 by norm_num,
        SafeSqrt_of_nonneg _ (by norm_num)]
    rw [harg, show morphoSt.toHairBxDF.eta = 3 / 2 from rfl]
    exact FrDielectric_lt_one _ _ (Real.sqrt_pos.mpr (by norm_num))
      (Real.sqrt_le_one.mpr (by norm_num)) (by norm_num)
  have hS3 := apPDF_first3_pos morphoSt.toHairBxDF (by norm_num)
    (by norm_num [morphoSt]) (fun j => by norm_num [morphoSt]) 1 hflt
  have harc : Real.arcsin (1 / 3) < Real.arcsin (1 / 2) := by
    exact Real.strictMonoOn_arcsin (by constructor <;> norm_num)
      (by constructor <;> norm_num) (by norm_num)
  nlinarith [mul_pos hS3 (sub_pos.mpr harc)]

/-! ## C4: degenerate inputs -/

theorem FrD_grazing : FrDielectric 0 (3 / 2) = 1 := by
  simp only [FrDielectric, frCore]
  norm_num

/-- C4, counterexample: at grazing incidence (`wo.z == 0`) the smooth
dielectric `Sample_f` does NOT return "no sample": the Fresnel
reflectance is 1, the reflection branch is taken, and an engaged sample
is returned (whose weight `R/|wi.z|` divides by zero), refuting the
claim that sample returns no sample for `wo.z == 0`. -/
theorem dielectric_sample_grazing_returns_sample :
    (DielectricBxDF.Sample_f 1
      ⟨3 / 2, ⟨fun _ => 0, fun _ _ => 0, fun _ _ => 0, fun _ _ => ⟨0, 0, 0⟩, true⟩⟩
      ⟨1, 0, 0⟩ 0 (0, 0) TransportMode.Importance ⟨true, true⟩).isSome = true := by
  simp only [DielectricBxDF.Sample_f, CosTheta, FrD_grazing]
  norm_num

/-- C4, amended: the EVALUATE paths behave as claimed — the dielectric
and measured `f` return zero for `wo.z == 0` and for a zero-length
(generalized) half vector — while the smooth dielectric SAMPLE path at
`wo.z == 0` returns a sample (see the counterexample). -/
theorem degenerate_evaluate_zero :
    (∀ (b : DielectricBxDF) (wo wi : Vec3) (mode : TransportMode),
      wo.z = 0 → DielectricBxDF.f b wo wi mode = 0) ∧
    (∀ (b : DielectricBxDF) (wo wi : Vec3) (mode : TransportMode),
      Vec3.lengthSq (DielectricBxDF.genHalf b wo wi) = 0 →
      DielectricBxDF.f b wo wi mode = 0) ∧
    (∀ (n : ℕ) (ops : MeasuredOps n) (wo wi : Vec3) (mode : TransportMode),
      wo.z = 0 → MeasuredBxDF.f ops wo wi mode = constSpec n 0) ∧
    (∀ (n : ℕ) (ops : MeasuredOps n) (wo wi : Vec3) (mode : TransportMode),
      Vec3.lengthSq (Vec3.add wi wo) = 0 →
      MeasuredBxDF.f ops wo wi mode = constSpec n 0) := by
  refine ⟨fun b wo wi mode h => ?_, fun b wo wi mode h => ?_,
    fun n ops wo wi mode h => ?_, fun n ops wo wi mode h => ?_⟩
  · simp only [DielectricBxDF.f, CosTheta, h]
    split_ifs with h1 h2 <;> try rfl
    all_goals exact absurd (Or.inr (Or.inl trivial)) h2
  · simp only [DielectricBxDF.f, CosTheta, h]
    split_ifs with h1 h2 <;> try rfl
    all_goals exact absurd (Or.inr (Or.inr trivial)) h2
  · simp only [MeasuredBxDF.f, SameHemisphereP, h, zero_mul, lt_irrefl,
      not_false_iff, if_true]
  · simp only [MeasuredBxDF.f]
    split_ifs with h1 h2 h3 <;> try rfl
    all_goals first
      | exact absurd h h3
      | exact absurd (by rw [Vec3.neg_add, Vec3.lengthSq_neg]; exact h) h3

/-- Witness for C4's amended theorem at concrete degenerate inputs. -/
theorem degenerate_evaluate_zero_witness :
    DielectricBxDF.f
      ⟨2, ⟨fun _ => 0, fun _ _ => 0, fun _ _ => 0, fun _ _ => ⟨0, 0, 0⟩, false⟩⟩
      ⟨1, 0, 0⟩ ⟨0, 0, 1⟩ TransportMode.Radiance = 0 ∧
    DielectricBxDF.f
      ⟨2, ⟨fun _ => 0, fun _ _ => 0, fun _ _ => 0, fun _ _ => ⟨0, 0, 0⟩, false⟩⟩
      ⟨0, 0, 1⟩ ⟨0, 0, -(1 / 2)⟩ TransportMode.Radiance = 0 ∧
    MeasuredBxDF.f
      (⟨fun _ _ _ => ((0, 0), 0), fun _ _ _ _ => 0, fun _ => 0, fun _ => 0,
        fun _ => 0, true⟩ : MeasuredOps 1) ⟨1, 0, 0⟩ ⟨0, 1, 0⟩ TransportMode.Radiance =
      constSpec 1 0 ∧
    MeasuredBxDF.f
      (⟨fun _ _ _ => ((0, 0), 0), fun _ _ _ _ => 0, fun _ => 0, fun _ => 0,
        fun _ => 0, true⟩ : MeasuredOps 1) ⟨0, 1, 0⟩ ⟨0, -1, 0⟩ TransportMode.Radiance =
      constSpec 1 0 :=
  ⟨degenerate_evaluate_zero.1 _ _ _ _ rfl,
   degenerate_evaluate_zero.2.1 _ _ _ _ (by
    norm_num [DielectricBxDF.genHalf, DielectricBxDF.etapOf, Vec3.smul, Vec3.add,
      Vec3.lengthSq, Vec3.dot]),
   degenerate_evaluate_zero.2.2.1 _ _ _ _ _ rfl,
   degenerate_evaluate_zero.2.2.2 _ _ _ _ _ (by
    norm_num [Vec3.add, Vec3.lengthSq, Vec3.dot])⟩

/-! ## C3: the smooth dielectric sampling contract -/

/-- C3: in the smooth case (index 1 or effectively-smooth roughness),
`DielectricBxDF::Sample_f` with Fresnel reflectance `R`, `T = 1 - R`,
and filter-masked probabilities `pr`, `pt`: no sample when both masked
probabilities vanish; reflection exactly when `uc < pr/(pr+pt)`, with
the mirrored direction, weight `R/|cos theta_i|` and density
`pr/(pr+pt)`; otherwise refraction with weight `T/|cos theta_i|`
(divided by the squared relative index in Radiance mode) and density
`pt/(pr+pt)`; no sample on total internal reflection. -/
theorem smooth_dielectric_sample_spec (n : ℕ) (b : DielectricBxDF) (wo : Vec3)
    (uc : ℝ) (u : ℝ × ℝ) (mode : TransportMode) (fl : BxDFReflTransFlags)
    (R T pr pt : ℝ)
    (hsm : b.eta = 1 ∨ b.mfDistrib.EffectivelySmooth = true)
    (hR : R = FrDielectric (CosTheta wo) b.eta)
    (hT : T = 1 - R)
    (hpr : pr = if fl.reflection then R else 0)
    (hpt : pt = if fl.transmission then T else 0) :
    (pr = 0 ∧ pt = 0 → DielectricBxDF.Sample_f n b wo uc u mode fl = none) ∧
    (¬ (pr = 0 ∧ pt = 0) → uc < pr / (pr + pt) →
      DielectricBxDF.Sample_f n b wo uc u mode fl =
        some ⟨constSpec n (R / |wo.z|), ⟨-wo.x, -wo.y, wo.z⟩, pr / (pr + pt),
          BxDFFlags.SpecularReflection, 1⟩) ∧
    (¬ (pr = 0 ∧ pt = 0) → ¬ uc < pr / (pr + pt) →
      Refract wo ⟨0, 0, 1⟩ b.eta = none →
      DielectricBxDF.Sample_f n b wo uc u mode fl = none) ∧
    (∀ etap wi, ¬ (pr = 0 ∧ pt = 0) → ¬ uc < pr / (pr + pt) →
      Refract wo ⟨0, 0, 1⟩ b.eta = some (etap, wi) →
      DielectricBxDF.Sample_f n b wo uc u mode fl =
        some ⟨constSpec n (if mode = TransportMode.Radiance then T / |wi.z| / etap ^ 2
            else T / |wi.z|), wi, pt / (pr + pt),
          BxDFFlags.SpecularTransmission, etap⟩) := by
  subst hR hT hpr hpt
  refine ⟨fun h0 => ?_, fun h0 hrefl => ?_, fun h0 hrefl htir => ?_,
    fun etap wi h0 hrefl hok => ?_⟩
  · simp only [DielectricBxDF.Sample_f, if_pos hsm]
    rw [if_pos h0]
  · simp only [DielectricBxDF.Sample_f, if_pos hsm]
    rw [if_neg h0, if_pos hrefl]
    rfl
  · simp only [DielectricBxDF.Sample_f, if_pos hsm]
    rw [if_neg h0, if_neg hrefl, htir]
  · simp only [DielectricBxDF.Sample_f, if_pos hsm]
    rw [if_neg h0, if_neg hrefl, hok]
    rfl

/-- Witness for C3: a concrete index-1 smooth dielectric transmits with
unit weight and density. -/
theorem smooth_dielectric_sample_spec_witness :
    DielectricBxDF.Sample_f 1
      ⟨1, ⟨fun _ => 0, fun _ _ => 0, fun _ _ => 0, fun _ _ => ⟨0, 0, 0⟩, false⟩⟩
      ⟨0, 0, 1⟩ (1 / 2) (0, 0) TransportMode.Radiance ⟨true, true⟩ =
    some ⟨constSpec 1 1, ⟨0, 0, -1⟩, 1, BxDFFlags.SpecularTransmission, 1⟩ := by
  have hfr : (0 : ℝ) = FrDielectric (CosTheta ⟨0, 0, 1⟩) 1 := by
    simp [FrDielectric, frCore, CosTheta, Real.sqrt_one]
    norm_num
  have hrefract : Refract ⟨0, 0, 1⟩ ⟨0, 0, 1⟩ 1 = some (1, ⟨0, 0, -1⟩) := by
    simp only [Refract, Vec3.dot, Vec3.smul, Vec3.add, Vec3.neg]
    norm_num [Real.sqrt_one]
  have h := (smooth_dielectric_sample_spec 1
    ⟨1, ⟨fun _ => 0, fun _ _ => 0, fun _ _ => 0, fun _ _ => ⟨0, 0, 0⟩, false⟩⟩
    ⟨0, 0, 1⟩ (1 / 2) (0, 0) TransportMode.Radiance ⟨true, true⟩ 0 1 0 1
    (Or.inl rfl) hfr (by norm_num) (by norm_num) (by norm_num)).2.2.2
    1 ⟨0, 0, -1⟩ (by norm_num) (by norm_num) hrefract
  rw [h]
  norm_num

/-! ## C6: reciprocity -/

theorem Vec3.dot_sq_le_lengthSq (a b : Vec3) :
    Vec3.dot a b ^ 2 ≤ Vec3.lengthSq a * Vec3.lengthSq b := by
  unfold Vec3.lengthSq Vec3.dot
  nlinarith [sq_nonneg (a.x * b.y - a.y * b.x), sq_nonneg (a.x * b.z - a.z * b.x),
    sq_nonneg (a.y * b.z - a.z * b.y)]

theorem Vec3.smul_smul (c d : ℝ) (v : Vec3) :
    Vec3.smul c (Vec3.smul d v) = Vec3.smul (c * d) v := by
  simp only [Vec3.smul, Vec3.mk.injEq]
  refine ⟨by ring, by ring, by ring⟩

theorem Vec3.lengthSq_smul (c : ℝ) (v : Vec3) :
    Vec3.lengthSq (Vec3.smul c v) = c ^ 2 * Vec3.lengthSq v := by
  unfold Vec3.lengthSq Vec3.dot Vec3.smul
  ring

theorem Vec3.lengthSq_nonneg (v : Vec3) : 0 ≤ Vec3.lengthSq v := by
  unfold Vec3.lengthSq Vec3.dot
  nlinarith [mul_self_nonneg v.x, mul_self_nonneg v.y, mul_self_nonneg v.z]

theorem Vec3.length_sq_eq (v : Vec3) : Vec3.length v ^ 2 = Vec3.lengthSq v := by
  unfold Vec3.length
  exact Real.sq_sqrt (Vec3.lengthSq_nonneg v)

theorem Vec3.length_pos (v : Vec3) (h : Vec3.lengthSq v ≠ 0) : 0 < Vec3.length v := by
  unfold Vec3.length
  exact Real.sqrt_pos.mpr (lt_of_le_of_ne (Vec3.lengthSq_nonneg v) (Ne.symm h))

theorem Vec3.neg_eq_smul (v : Vec3) : Vec3.neg v = Vec3.smul (-1) v := by
  simp only [Vec3.neg, Vec3.smul, Vec3.mk.injEq]
  refine ⟨by ring, by ring, by ring⟩

theorem Vec3.normalize_smul_pos (c : ℝ) (hc : 0 < c) (v : Vec3) :
    Vec3.normalize (Vec3.smul c v) = Vec3.normalize v := by
  unfold Vec3.normalize
  have hlen : Vec3.length (Vec3.smul c v) = c * Vec3.length v := by
    unfold Vec3.length
    rw [Vec3.lengthSq_smul, Real.sqrt_mul (sq_nonneg c), Real.sqrt_sq hc.le]
  rw [hlen, Vec3.smul_smul]
  congr 1
  rcases eq_or_ne (Vec3.length v) 0 with h | h
  · rw [h, mul_zero]
    simp
  · field_simp

theorem lengthSq_faceForward_normalize (v : Vec3) (hv : Vec3.lengthSq v ≠ 0) :
    Vec3.lengthSq (faceForwardZ (Vec3.normalize v)) = 1 := by
  have hn : Vec3.lengthSq (Vec3.normalize v) = 1 := by
    unfold Vec3.normalize
    rw [Vec3.lengthSq_smul]
    have h1 : (1 / Vec3.length v) ^ 2 * Vec3.lengthSq v
        = Vec3.lengthSq v / Vec3.length v ^ 2 := by ring
    rw [h1, Vec3.length_sq_eq, div_self hv]
  unfold faceForwardZ
  split_ifs
  · rw [Vec3.lengthSq_neg, hn]
  · exact hn

theorem faceForward_normalize_scale (v : Vec3) (hv : Vec3.lengthSq v ≠ 0) :
    ∃ k : ℝ, k ≠ 0 ∧ v = Vec3.smul k (faceForwardZ (Vec3.normalize v)) := by
  have hL := Vec3.length_pos v hv
  have hself : Vec3.smul (Vec3.length v) (Vec3.normalize v) = v := by
    unfold Vec3.normalize
    rw [Vec3.smul_smul]
    have h1 : Vec3.length v * (1 / Vec3.length v) = 1 := by field_simp
    rw [h1, Vec3.smul_one]
  unfold faceForwardZ
  split_ifs
  · refine ⟨-Vec3.length v, neg_ne_zero.mpr hL.ne', ?_⟩
    rw [Vec3.neg_eq_smul, Vec3.smul_smul]
    rw [show -Vec3.length v * (-1) = Vec3.length v from by ring]
    exact hself.symm
  · exact ⟨Vec3.length v, hL.ne', hself.symm⟩

/-- Fresnel reciprocity for the core formula: at cosines coupled by
Snell's law the reflectance is the same from either side of the
interface. -/
theorem frCore_reciprocal (e x y : ℝ) (he : 0 < e) (hx : 0 < x)
    (hy : 0 < y) (hsnell : 1 - x ^ 2 = e ^ 2 * (1 - y ^ 2)) :
    frCore x e = frCore y (1 / e) := by
  have hEne : e ≠ 0 := he.ne'
  have h1 : (1 - x ^ 2) / e ^ 2 = 1 - y ^ 2 := by
    rw [hsnell]
    field_simp
  have h2 : (1 - y ^ 2) / (1 / e) ^ 2 = 1 - x ^ 2 := by
    field_simp
    linear_combination -hsnell
  simp only [frCore]
  rw [if_neg (by rw [h1]; push_neg; nlinarith), if_neg (by rw [h2]; push_neg; nlinarith)]
  rw [show 1 - (1 - x ^ 2) / e ^ 2 = y ^ 2 from by rw [h1]; ring,
    show 1 - (1 - y ^ 2) / (1 / e) ^ 2 = x ^ 2 from by rw [h2]; ring]
  rw [Real.sqrt_sq hy.le, Real.sqrt_sq hx.le]
  have hd1 : e * x + y ≠ 0 := by positivity
  have hd2 : x + e * y ≠ 0 := by positivity
  have hd3 : 1 / e * y + x ≠ 0 := by positivity
  have hd4 : y + 1 / e * x ≠ 0 := by positivity
  field_simp
  ring

theorem FrDielectric_of_nonneg (c e : ℝ) (h0 : 0 ≤ c) (h1 : c ≤ 1) :
    FrDielectric c e = frCore c e := by
  simp only [FrDielectric]
  rw [min_eq_left h1, max_eq_right (by linarith), if_neg (not_lt.mpr h0)]

theorem FrDielectric_of_neg (c e : ℝ) (h0 : c < 0) (h1 : -1 ≤ c) :
    FrDielectric c e = frCore (-c) (1 / e) := by
  simp only [FrDielectric]
  rw [min_eq_left (by linarith), max_eq_right h1, if_pos h0]

theorem neg_one_le_of_sq_le_one (t : ℝ) (h : t ^ 2 ≤ 1) : -1 ≤ t ∧ t ≤ 1 := by
  constructor <;> nlinarith [sq_nonneg (t + 1), sq_nonneg (t - 1)]

theorem trans_ratio_core (Dv Gv F zi zo ci co E : ℝ) (hE : 0 < E) :
    Dv * (1 - F) * Gv * |co * ci / ((co + ci / (1 / E)) ^ 2 * zo * zi)| / (1 / E) ^ 2 =
      E ^ 2 * (Dv * (1 - F) * Gv * |ci * co / ((ci + co / E) ^ 2 * zi * zo)| / E ^ 2) := by
  have hEne : E ≠ 0 := hE.ne'
  have h1 : co * ci / ((co + ci / (1 / E)) ^ 2 * zo * zi) =
      ci * co / ((ci + co / E) ^ 2 * zi * zo) / E ^ 2 := by
    rw [show co + ci / (1 / E) = E * (ci + co / E) from by field_simp; ring]
    rw [mul_pow, div_div]
    ring
  rw [h1, abs_div, abs_of_pos (by positivity : (0 : ℝ) < E ^ 2)]
  field_simp

/-- Dielectric transmission: swapping the direction pair scales `f` by
the squared relative index in Radiance mode, for unit directions, a
symmetric masking-shadowing term, and a half vector not perpendicular to
either direction. -/
theorem dielectric_transmission_ratio (b : DielectricBxDF) (wo wi : Vec3)
    (hwo : Vec3.lengthSq wo = 1) (hwi : Vec3.lengthSq wi = 1)
    (hG : b.mfDistrib.G wo wi = b.mfDistrib.G wi wo)
    (he : 0 < b.eta) (ht : wi.z * wo.z < 0)
    (hd1 : Vec3.dot wo
      (faceForwardZ (Vec3.normalize (DielectricBxDF.genHalf b wo wi))) ≠ 0)
    (hd2 : Vec3.dot wi
      (faceForwardZ (Vec3.normalize (DielectricBxDF.genHalf b wo wi))) ≠ 0) :
    DielectricBxDF.f b wi wo TransportMode.Radiance =
      DielectricBxDF.etapOf b wo wi ^ 2 *
        DielectricBxDF.f b wo wi TransportMode.Radiance := by
  have hwoz : wo.z ≠ 0 := by
    intro h
    rw [h, mul_zero] at ht
    exact lt_irrefl 0 ht
  have hwiz : wi.z ≠ 0 := by
    intro h
    rw [h, zero_mul] at ht
    exact lt_irrefl 0 ht
  have hnotr : ¬ 0 < wi.z * wo.z := not_lt.mpr ht.le
  have hnotr2 : ¬ 0 < wo.z * wi.z := by rw [mul_comm]; exact hnotr
  have hEpos : 0 < DielectricBxDF.etapOf b wo wi := by
    unfold DielectricBxDF.etapOf
    rw [if_neg hnotr]
    split_ifs
    · exact he
    · positivity
  have hEne : DielectricBxDF.etapOf b wo wi ≠ 0 := hEpos.ne'
  have hE2 : DielectricBxDF.etapOf b wi wo = 1 / DielectricBxDF.etapOf b wo wi := by
    unfold DielectricBxDF.etapOf
    rw [if_neg hnotr, if_neg hnotr2]
    rcases lt_trichotomy wo.z 0 with h | h | h
    · have hwi' : 0 < wi.z := by nlinarith
      rw [if_neg (not_lt.mpr h.le), if_pos hwi', one_div_one_div]
    · exact absurd h hwoz
    · have hwi' : wi.z < 0 := by nlinarith
      rw [if_pos h, if_neg (not_lt.mpr hwi'.le)]
  have hwm2 : DielectricBxDF.genHalf b wi wo =
      Vec3.smul (1 / DielectricBxDF.etapOf b wo wi) (DielectricBxDF.genHalf b wo wi) := by
    unfold DielectricBxDF.genHalf
    rw [hE2]
    simp only [Vec3.smul, Vec3.add, Vec3.mk.injEq]
    refine ⟨?_, ?_, ?_⟩ <;> field_simp <;> ring
  have hWswap : faceForwardZ (Vec3.normalize (DielectricBxDF.genHalf b wi wo)) =
      faceForwardZ (Vec3.normalize (DielectricBxDF.genHalf b wo wi)) := by
    rw [hwm2, Vec3.normalize_smul_pos _ (by positivity) _]
  by_cases hlen : Vec3.lengthSq (DielectricBxDF.genHalf b wo wi) = 0
  · exfalso
    apply hd1
    have hz : DielectricBxDF.genHalf b wo wi = ⟨0, 0, 0⟩ := by
      have h0 := hlen
      unfold Vec3.lengthSq Vec3.dot at h0
      have hx : (DielectricBxDF.genHalf b wo wi).x * (DielectricBxDF.genHalf b wo wi).x
          = 0 := by
        nlinarith [mul_self_nonneg (DielectricBxDF.genHalf b wo wi).x,
          mul_self_nonneg (DielectricBxDF.genHalf b wo wi).y,
          mul_self_nonneg (DielectricBxDF.genHalf b wo wi).z]
      have hy : (DielectricBxDF.genHalf b wo wi).y * (DielectricBxDF.genHalf b wo wi).y
          = 0 := by
        nlinarith [mul_self_nonneg (DielectricBxDF.genHalf b wo wi).x,
          mul_self_nonneg (DielectricBxDF.genHalf b wo wi).y,
          mul_self_nonneg (DielectricBxDF.genHalf b wo wi).z]
      have hzc : (DielectricBxDF.genHalf b wo wi).z * (DielectricBxDF.genHalf b wo wi).z
          = 0 := by
        nlinarith [mul_self_nonneg (DielectricBxDF.genHalf b wo wi).x,
          mul_self_nonneg (DielectricBxDF.genHalf b wo wi).y,
          mul_self_nonneg (DielectricBxDF.genHalf b wo wi).z]
      rw [Vec3.ext_iff2]
      exact ⟨mul_self_eq_zero.mp hx, mul_self_eq_zero.mp hy, mul_self_eq_zero.mp hzc⟩
    rw [hz]
    simp [Vec3.normalize, Vec3.length, Vec3.lengthSq, Vec3.dot, Vec3.smul, faceForwardZ]
  have hlen2 : Vec3.lengthSq (DielectricBxDF.genHalf b wi wo) ≠ 0 := by
    rw [hwm2, Vec3.lengthSq_smul]
    intro h
    rcases mul_eq_zero.mp h with h' | h'
    · exact pow_ne_zero 2 (one_div_ne_zero hEne) h'
    · exact hlen h'
  obtain ⟨W, hWdef⟩ : ∃ W : Vec3,
      W = faceForwardZ (Vec3.normalize (DielectricBxDF.genHalf b wo wi)) := ⟨_, rfl⟩
  rw [← hWdef] at hd1 hd2 hWswap
  have hWunit : Vec3.lengthSq W = 1 := by
    rw [hWdef]
    exact lengthSq_faceForward_normalize _ hlen
  have hdotWW : Vec3.dot W W = 1 := hWunit
  obtain ⟨k, hk0, hkeq0⟩ := faceForward_normalize_scale (DielectricBxDF.genHalf b wo wi) hlen
  have hkeq : DielectricBxDF.genHalf b wo wi = Vec3.smul k W := by
    rw [hWdef]
    exact hkeq0
  have hkW : Vec3.dot (DielectricBxDF.genHalf b wo wi) W = k := by
    rw [hkeq, Vec3.dot_comm, Vec3.dot_smul_right, hdotWW, mul_one]
  have hgw : Vec3.dot (DielectricBxDF.genHalf b wo wi) W =
      DielectricBxDF.etapOf b wo wi * Vec3.dot wi W + Vec3.dot wo W := by
    unfold DielectricBxDF.genHalf
    rw [Vec3.dot_comm, Vec3.dot_add_right, Vec3.dot_smul_right,
      Vec3.dot_comm W wi, Vec3.dot_comm W wo]
  have hArel : DielectricBxDF.etapOf b wo wi * Vec3.dot wi W + Vec3.dot wo W = k := by
    rw [← hgw]
    exact hkW
  have hCrel : k ^ 2 = DielectricBxDF.etapOf b wo wi ^ 2 +
      2 * DielectricBxDF.etapOf b wo wi * Vec3.dot wo wi + 1 := by
    have h1 : Vec3.lengthSq (DielectricBxDF.genHalf b wo wi) =
        DielectricBxDF.etapOf b wo wi ^ 2 * Vec3.lengthSq wi +
          2 * DielectricBxDF.etapOf b wo wi * Vec3.dot wo wi + Vec3.lengthSq wo := by
      unfold DielectricBxDF.genHalf Vec3.lengthSq Vec3.dot Vec3.add Vec3.smul
      ring
    have h2 : Vec3.lengthSq (DielectricBxDF.genHalf b wo wi) = k ^ 2 := by
      rw [hkeq, Vec3.lengthSq_smul, hWunit, mul_one]
    rw [← h2, h1, hwi, hwo]
    ring
  have hDrel : k * Vec3.dot wi W = DielectricBxDF.etapOf b wo wi + Vec3.dot wo wi := by
    have h1 : Vec3.dot wi (DielectricBxDF.genHalf b wo wi) =
        DielectricBxDF.etapOf b wo wi * Vec3.lengthSq wi + Vec3.dot wo wi := by
      unfold DielectricBxDF.genHalf Vec3.lengthSq Vec3.dot Vec3.add Vec3.smul
      ring
    have h2 : Vec3.dot wi (DielectricBxDF.genHalf b wo wi) = k * Vec3.dot wi W := by
      rw [hkeq, Vec3.dot_smul_right]
    rw [← h2, h1, hwi, mul_one]
  have hsnell : 1 - Vec3.dot wo W ^ 2 =
      DielectricBxDF.etapOf b wo wi ^ 2 * (1 - Vec3.dot wi W ^ 2) := by
    have hco : Vec3.dot wo W = k - DielectricBxDF.etapOf b wo wi * Vec3.dot wi W := by
      linarith [hArel]
    rw [hco]
    linear_combination (-1 : ℝ) * hCrel + 2 * DielectricBxDF.etapOf b wo wi * hDrel
  have hco2 : Vec3.dot wo W ^ 2 ≤ 1 := by
    have h := Vec3.dot_sq_le_lengthSq wo W
    rw [hwo, hWunit] at h
    simpa using h
  have hci2 : Vec3.dot wi W ^ 2 ≤ 1 := by
    have h := Vec3.dot_sq_le_lengthSq wi W
    rw [hwi, hWunit] at h
    simpa using h
  by_cases hdisc : Vec3.dot W wi * CosTheta wi < 0 ∨ Vec3.dot W wo * CosTheta wo < 0
  · simp only [DielectricBxDF.f]
    by_cases hsm : b.eta = 1 ∨ b.mfDistrib.EffectivelySmooth = true
    · rw [if_pos hsm, if_pos hsm]
      ring
    · rw [if_neg hsm, if_neg hsm, hWswap, ← hWdef]
      rw [if_neg (show ¬ (CosTheta wo = 0 ∨ CosTheta wi = 0 ∨
          Vec3.lengthSq (DielectricBxDF.genHalf b wi wo) = 0) from by
        simp [CosTheta, hwiz, hwoz, hlen2])]
      rw [if_neg (show ¬ (CosTheta wi = 0 ∨ CosTheta wo = 0 ∨
          Vec3.lengthSq (DielectricBxDF.genHalf b wo wi) = 0) from by
        simp [CosTheta, hwiz, hwoz, hlen])]
      rw [if_pos (Or.symm hdisc), if_pos hdisc]
      ring
  · have hnd1 : ¬ (Vec3.dot W wi * CosTheta wi < 0 ∨
        Vec3.dot W wo * CosTheta wo < 0) := hdisc
    have hnd2 : ¬ (Vec3.dot W wo * CosTheta wo < 0 ∨
        Vec3.dot W wi * CosTheta wi < 0) := fun h => hdisc (Or.symm h)
    push_neg at hdisc
    obtain ⟨hbf1, hbf2⟩ := hdisc
    rw [Vec3.dot_comm W wi] at hbf1
    rw [Vec3.dot_comm W wo] at hbf2
    simp only [CosTheta] at hbf1 hbf2
    have hcob := neg_one_le_of_sq_le_one _ hco2
    have hcib := neg_one_le_of_sq_le_one _ hci2
    have hF : FrDielectric (Vec3.dot wi W) b.eta = FrDielectric (Vec3.dot wo W) b.eta := by
      rcases lt_trichotomy wo.z 0 with hsgn | hsgn | hsgn
      · have hwi' : 0 < wi.z := by
          rcases mul_neg_iff.mp ht with ⟨h1, _⟩ | ⟨_, h2⟩
          · exact h1
          · exact absurd hsgn (not_lt.mpr h2.le)
        have hco : Vec3.dot wo W < 0 := by
          rcases lt_trichotomy (Vec3.dot wo W) 0 with h | h | h
          · exact h
          · exact absurd h hd1
          · exfalso
            have hx := mul_pos h (neg_pos.mpr hsgn)
            rw [mul_neg] at hx
            linarith only [hbf2, hx]
        have hci : 0 < Vec3.dot wi W := by
          rcases lt_trichotomy (Vec3.dot wi W) 0 with h | h | h
          · exfalso
            have hx := mul_neg_of_neg_of_pos h hwi'
            linarith only [hbf1, hx]
          · exact absurd h hd2
          · exact h
        have hEeq : DielectricBxDF.etapOf b wo wi = 1 / b.eta := by
          unfold DielectricBxDF.etapOf
          rw [if_neg hnotr, if_neg (not_lt.mpr hsgn.le)]
        rw [hEeq] at hsnell
        have hprod : (1 - Vec3.dot wo W ^ 2) * b.eta ^ 2 = 1 - Vec3.dot wi W ^ 2 := by
          rw [hsnell]
          field_simp
        have hsn : 1 - Vec3.dot wi W ^ 2 =
            b.eta ^ 2 * (1 - (-Vec3.dot wo W) ^ 2) := by
          linear_combination (-1 : ℝ) * hprod
        rw [FrDielectric_of_neg _ _ hco hcob.1,
          FrDielectric_of_nonneg _ _ hci.le hcib.2]
        exact frCore_reciprocal b.eta (Vec3.dot wi W) (-Vec3.dot wo W) he hci
          (by linarith only [hco]) hsn
      · exact absurd hsgn hwoz
      · have hwi' : wi.z < 0 := by
          rcases mul_neg_iff.mp ht with ⟨_, h2⟩ | ⟨h1, _⟩
          · exact absurd hsgn (not_lt.mpr h2.le)
          · exact h1
        have hco : 0 < Vec3.dot wo W := by
          rcases lt_trichotomy (Vec3.dot wo W) 0 with h | h | h
          · exfalso
            have hx := mul_neg_of_neg_of_pos h hsgn
            linarith only [hbf2, hx]
          · exact absurd h hd1
          · exact h
        have hci : Vec3.dot wi W < 0 := by
          rcases lt_trichotomy (Vec3.dot wi W) 0 with h | h | h
          · exact h
          · exact absurd h hd2
          · exfalso
            have hx := mul_neg_of_pos_of_neg h hwi'
            linarith only [hbf1, hx]
        have hEeq : DielectricBxDF.etapOf b wo wi = b.eta := by
          unfold DielectricBxDF.etapOf
          rw [if_neg hnotr, if_pos hsgn]
        rw [hEeq] at hsnell
        have hsn : 1 - Vec3.dot wo W ^ 2 =
            b.eta ^ 2 * (1 - (-Vec3.dot wi W) ^ 2) := by
          linear_combination hsnell
        rw [FrDielectric_of_neg _ _ hci hcib.1,
          FrDielectric_of_nonneg _ _ hco.le hcob.2]
        exact (frCore_reciprocal b.eta (Vec3.dot wo W) (-Vec3.dot wi W) he hco
          (by linarith only [hci]) hsn).symm
    simp only [DielectricBxDF.f]
    by_cases hsm : b.eta = 1 ∨ b.mfDistrib.EffectivelySmooth = true
    · rw [if_pos hsm, if_pos hsm]
      ring
    · rw [if_neg hsm, if_neg hsm, hWswap, ← hWdef]
      rw [if_neg (show ¬ (CosTheta wo = 0 ∨ CosTheta wi = 0 ∨
          Vec3.lengthSq (DielectricBxDF.genHalf b wi wo) = 0) from by
        simp [CosTheta, hwiz, hwoz, hlen2])]
      rw [if_neg (show ¬ (CosTheta wi = 0 ∨ CosTheta wo = 0 ∨
          Vec3.lengthSq (DielectricBxDF.genHalf b wo wi) = 0) from by
        simp [CosTheta, hwiz, hwoz, hlen])]
      rw [if_neg hnd2, if_neg hnd1]
      rw [if_neg (show ¬ 0 < CosTheta wo * CosTheta wi from hnotr2),
        if_neg (show ¬ 0 < CosTheta wi * CosTheta wo from hnotr)]
      rw [if_true, if_true]
      rw [hF, ← hG, hE2]
      exact trans_ratio_core (b.mfDistrib.D W) (b.mfDistrib.G wo wi)
        (FrDielectric (Vec3.dot wo W) b.eta) (CosTheta wi) (CosTheta wo)
        (Vec3.dot wi W) (Vec3.dot wo W) (DielectricBxDF.etapOf b wo wi) hEpos

theorem FrD_one : FrDielectric 1 (3 / 2) = 1 / 25 := by
  simp only [FrDielectric, frCore]
  norm_num [Real.sqrt_one]

theorem hairF_fwd :
    HairBxDF.f hairSt constHelpers ⟨0, 0, 1⟩ ⟨0, 3 / 5, 4 / 5⟩
      TransportMode.Importance 0 = hairCval * (5 / 4) := by
  simp only [HairBxDF.f, Np, constHelpers, Ap, AbsCosTheta, hairSt, constSpec,
    hairCval]
  norm_num [SafeSqrt_one, FrD_one, Fin.sum_univ_three, castSucc_zero3,
    castSucc_one3, castSucc_two3, Matrix.cons_val_zero, Matrix.cons_val_one,
    Matrix.head_cons, Matrix.cons_val_two, Matrix.tail_cons, Matrix.cons_val_three,
    constSpec, abs_of_pos]
  ring_nf
  try ring

theorem hairF_bwd :
    HairBxDF.f hairSt constHelpers ⟨0, 3 / 5, 4 / 5⟩ ⟨0, 0, 1⟩
      TransportMode.Importance 0 = hairCval := by
  simp only [HairBxDF.f, Np, constHelpers, Ap, AbsCosTheta, hairSt, constSpec,
    hairCval]
  norm_num [SafeSqrt_one, FrD_one, Fin.sum_univ_three, castSucc_zero3,
    castSucc_one3, castSucc_two3, Matrix.cons_val_zero, Matrix.cons_val_one,
    Matrix.head_cons, Matrix.cons_val_two, Matrix.tail_cons, Matrix.cons_val_three,
    constSpec, abs_of_pos]

theorem FrD_one_two : FrDielectric 1 2 = 1 / 9 := by
  simp only [FrDielectric, frCore]
  norm_num [Real.sqrt_one]

theorem FrD_negone_two : FrDielectric (-1) 2 = 1 / 9 := by
  simp only [FrDielectric, frCore]
  norm_num [Real.sqrt_one]

theorem sqrt_quarter : Real.sqrt (1 / 4 : ℝ) = 1 / 2 := by
  rw [show (1 / 4 : ℝ) = (1 / 2) ^ 2 from by norm_num,
    Real.sqrt_sq (by norm_num : (0 : ℝ) ≤ 1 / 2)]

theorem sqrt_four : Real.sqrt (4 : ℝ) = 2 := by
  rw [show (4 : ℝ) = 2 ^ 2 from by norm_num,
    Real.sqrt_sq (by norm_num : (0 : ℝ) ≤ 2)]

theorem imp_ne_rad : (TransportMode.Importance = TransportMode.Radiance) = False :=
  eq_false (by decide)

theorem dielF_fwd_imp :
    DielectricBxDF.f dielC ⟨0, 0, 1⟩ ⟨0, 0, -1⟩ TransportMode.Importance = 32 / 9 := by
  simp only [DielectricBxDF.f, dielC, DielectricBxDF.etapOf, DielectricBxDF.genHalf,
    CosTheta]
  norm_num [Vec3.smul, Vec3.add, Vec3.dot, Vec3.lengthSq, Vec3.normalize, Vec3.length,
    faceForwardZ, Vec3.neg, FrD_one_two, Real.sqrt_one, imp_ne_rad]

theorem dielF_bwd_imp :
    DielectricBxDF.f dielC ⟨0, 0, -1⟩ ⟨0, 0, 1⟩ TransportMode.Importance = 8 / 9 := by
  simp only [DielectricBxDF.f, dielC, DielectricBxDF.etapOf, DielectricBxDF.genHalf,
    CosTheta]
  norm_num [Vec3.smul, Vec3.add, Vec3.dot, Vec3.lengthSq, Vec3.normalize, Vec3.length,
    faceForwardZ, Vec3.neg, FrD_negone_two, sqrt_quarter, sqrt_four, imp_ne_rad]

/-- C6, counterexample: neither of the claim's universal reciprocity
clauses holds.  The hair model's `f` is NOT reciprocal under Importance
transport (its final `1/|wi.z|` normalization depends only on the
incident direction), and the dielectric `f` is NOT reciprocal under
Importance on a transmissive pair (the swapped generalized-half-vector
denominator picks up the squared relative index). -/
theorem reciprocity_counterexamples :
    (HairBxDF.f hairSt constHelpers ⟨0, 0, 1⟩ ⟨0, 3 / 5, 4 / 5⟩
        TransportMode.Importance ≠
      HairBxDF.f hairSt constHelpers ⟨0, 3 / 5, 4 / 5⟩ ⟨0, 0, 1⟩
        TransportMode.Importance) ∧
    DielectricBxDF.f dielC ⟨0, 0, 1⟩ ⟨0, 0, -1⟩ TransportMode.Importance ≠
      DielectricBxDF.f dielC ⟨0, 0, -1⟩ ⟨0, 0, 1⟩ TransportMode.Importance := by
  constructor
  · intro heq
    have h0 := congrFun heq 0
    rw [hairF_fwd, hairF_bwd] at h0
    have hC : 0 < hairCval := by
      unfold hairCval
      positivity
    nlinarith
  · intro heq
    rw [dielF_fwd_imp, dielF_bwd_imp] at heq
    norm_num at heq

/-- C6, amended: what does hold.  The hair model's `f` never consults
the transport mode (so the claimed Radiance-mode index-squared ratio
cannot arise there); the dielectric `f` IS reciprocal on reflection
configurations in every mode, for unit directions and a symmetric
masking-shadowing term; and on transmissive configurations the two
evaluation orders differ in Radiance mode by exactly the squared
relative index `etap^2` computed by the code (the claim's ratio
clause), away from the half-vector-perpendicular boundary. -/
theorem reciprocity_amended :
    (∀ (n : ℕ) (st : HairBxDF n) (H : HairHelpers) (wo wi : Vec3)
      (m1 m2 : TransportMode), HairBxDF.f st H wo wi m1 = HairBxDF.f st H wo wi m2) ∧
    (∀ (b : DielectricBxDF) (wo wi : Vec3) (mode : TransportMode),
      Vec3.lengthSq wo = 1 → Vec3.lengthSq wi = 1 →
      b.mfDistrib.G wo wi = b.mfDistrib.G wi wo → 0 < wi.z * wo.z →
      DielectricBxDF.f b wo wi mode = DielectricBxDF.f b wi wo mode) ∧
    (∀ (b : DielectricBxDF) (wo wi : Vec3),
      Vec3.lengthSq wo = 1 → Vec3.lengthSq wi = 1 →
      b.mfDistrib.G wo wi = b.mfDistrib.G wi wo → 0 < b.eta → wi.z * wo.z < 0 →
      Vec3.dot wo
        (faceForwardZ (Vec3.normalize (DielectricBxDF.genHalf b wo wi))) ≠ 0 →
      Vec3.dot wi
        (faceForwardZ (Vec3.normalize (DielectricBxDF.genHalf b wo wi))) ≠ 0 →
      DielectricBxDF.f b wi wo TransportMode.Radiance =
        DielectricBxDF.etapOf b wo wi ^ 2 *
          DielectricBxDF.f b wo wi TransportMode.Radiance) := by
  refine ⟨?_, ?_, ?_⟩
  · intro n st H wo wi m1 m2
    rfl
  · intro b wo wi mode hwo hwi hG hr
    have hr2 : 0 < wo.z * wi.z := by rw [mul_comm]; exact hr
    have he1 : DielectricBxDF.etapOf b wo wi = 1 := if_pos hr
    have he2 : DielectricBxDF.etapOf b wi wo = 1 := if_pos hr2
    have hwm : DielectricBxDF.genHalf b wi wo = DielectricBxDF.genHalf b wo wi := by
      unfold DielectricBxDF.genHalf
      rw [he1, he2, Vec3.smul_one, Vec3.smul_one, Vec3.add_comm']
    have hbase : Vec3.dot wo (DielectricBxDF.genHalf b wo wi) =
        Vec3.dot wi (DielectricBxDF.genHalf b wo wi) := by
      unfold DielectricBxDF.genHalf
      rw [he1, Vec3.smul_one, Vec3.dot_add_right, Vec3.dot_add_right]
      have h1 : Vec3.dot wo wo = 1 := hwo
      have h2 : Vec3.dot wi wi = 1 := hwi
      rw [h1, h2, Vec3.dot_comm wo wi]
      ring
    have hdotn : Vec3.dot wo
        (faceForwardZ (Vec3.normalize (DielectricBxDF.genHalf b wo wi))) =
        Vec3.dot wi
        (faceForwardZ (Vec3.normalize (DielectricBxDF.genHalf b wo wi))) := by
      unfold faceForwardZ Vec3.normalize
      split_ifs
      · rw [Vec3.dot_neg_right, Vec3.dot_neg_right, Vec3.dot_smul_right,
          Vec3.dot_smul_right, hbase]
      · rw [Vec3.dot_smul_right, Vec3.dot_smul_right, hbase]
    have hz1 : CosTheta wi ≠ 0 := by
      intro h
      rw [CosTheta] at h
      rw [h, zero_mul] at hr
      exact lt_irrefl 0 hr
    have hz2 : CosTheta wo ≠ 0 := by
      intro h
      rw [CosTheta] at h
      rw [h, zero_mul] at hr2
      exact lt_irrefl 0 hr2
    simp only [DielectricBxDF.f]
    by_cases hsm : b.eta = 1 ∨ b.mfDistrib.EffectivelySmooth = true
    · rw [if_pos hsm, if_pos hsm]
    · rw [if_neg hsm, if_neg hsm, hwm]
      by_cases hlen : Vec3.lengthSq (DielectricBxDF.genHalf b wo wi) = 0
      · rw [if_pos (Or.inr (Or.inr hlen)), if_pos (Or.inr (Or.inr hlen))]
      · rw [if_neg (by simp [hz1, hz2, hlen] :
          ¬ (CosTheta wi = 0 ∨ CosTheta wo = 0 ∨
            Vec3.lengthSq (DielectricBxDF.genHalf b wo wi) = 0)),
          if_neg (by simp [hz1, hz2, hlen] :
          ¬ (CosTheta wo = 0 ∨ CosTheta wi = 0 ∨
            Vec3.lengthSq (DielectricBxDF.genHalf b wo wi) = 0))]
        by_cases hdisc : Vec3.dot
            (faceForwardZ (Vec3.normalize (DielectricBxDF.genHalf b wo wi))) wi *
            CosTheta wi < 0 ∨ Vec3.dot
            (faceForwardZ (Vec3.normalize (DielectricBxDF.genHalf b wo wi))) wo *
            CosTheta wo < 0
        · rw [if_pos hdisc, if_pos (Or.symm hdisc)]
        · rw [if_neg hdisc, if_neg (show ¬ (Vec3.dot
            (faceForwardZ (Vec3.normalize (DielectricBxDF.genHalf b wo wi))) wo *
            CosTheta wo < 0 ∨ Vec3.dot
            (faceForwardZ (Vec3.normalize (DielectricBxDF.genHalf b wo wi))) wi *
            CosTheta wi < 0) from fun h => hdisc (Or.symm h))]
          rw [if_pos (show 0 < CosTheta wi * CosTheta wo from hr),
            if_pos (show 0 < CosTheta wo * CosTheta wi from hr2)]
          rw [hG, hdotn]
          rw [show (4 : ℝ) * CosTheta wi * CosTheta wo =
            4 * CosTheta wo * CosTheta wi from by ring]
  · exact fun b wo wi hwo hwi hG he ht hd1 hd2 =>
      dielectric_transmission_ratio b wo wi hwo hwi hG he ht hd1 hd2

/-- Witness for C6's amended theorem at concrete directions. -/
theorem reciprocity_amended_witness :
    (HairBxDF.f hairSt constHelpers ⟨0, 0, 1⟩ ⟨0, 1, 0⟩ TransportMode.Radiance =
      HairBxDF.f hairSt constHelpers ⟨0, 0, 1⟩ ⟨0, 1, 0⟩ TransportMode.Importance) ∧
    (DielectricBxDF.f
      ⟨2, ⟨fun _ => 0, fun _ _ => 1, fun _ _ => 0, fun _ _ => ⟨0, 0, 0⟩, false⟩⟩
      ⟨0, 0, 1⟩ ⟨3 / 5, 0, 4 / 5⟩ TransportMode.Radiance =
    DielectricBxDF.f
      ⟨2, ⟨fun _ => 0, fun _ _ => 1, fun _ _ => 0, fun _ _ => ⟨0, 0, 0⟩, false⟩⟩
      ⟨3 / 5, 0, 4 / 5⟩ ⟨0, 0, 1⟩ TransportMode.Radiance) ∧
    DielectricBxDF.f dielC ⟨0, 0, -1⟩ ⟨0, 0, 1⟩ TransportMode.Radiance =
      DielectricBxDF.etapOf dielC ⟨0, 0, 1⟩ ⟨0, 0, -1⟩ ^ 2 *
        DielectricBxDF.f dielC ⟨0, 0, 1⟩ ⟨0, 0, -1⟩ TransportMode.Radiance :=
  ⟨reciprocity_amended.1 1 hairSt constHelpers _ _ _ _,
   reciprocity_amended.2.1 _ _ _ TransportMode.Radiance
     (by norm_num [Vec3.lengthSq, Vec3.dot])
     (by norm_num [Vec3.lengthSq, Vec3.dot]) rfl (by norm_num),
   reciprocity_amended.2.2 dielC ⟨0, 0, 1⟩ ⟨0, 0, -1⟩
     (by norm_num [Vec3.lengthSq, Vec3.dot])
     (by norm_num [Vec3.lengthSq, Vec3.dot]) rfl
     (by norm_num [dielC]) (by norm_num)
     (by norm_num [DielectricBxDF.genHalf, DielectricBxDF.etapOf, dielC, Vec3.smul,
       Vec3.add, Vec3.dot, Vec3.normalize, Vec3.length, Vec3.lengthSq, faceForwardZ,
       Vec3.neg, Real.sqrt_one])
     (by norm_num [DielectricBxDF.genHalf, DielectricBxDF.etapOf, dielC, Vec3.smul,
       Vec3.add, Vec3.dot, Vec3.normalize, Vec3.length, Vec3.lengthSq, faceForwardZ,
       Vec3.neg, Real.sqrt_one])⟩

/-! ## C1: sample/density consistency for the hair model -/

theorem wrapAngle_sub_int_mul_two_pi (t : ℝ) (k : ℤ) :
    wrapAngle (t - (k : ℝ) * (2 * π)) = wrapAngle t := by
  unfold wrapAngle
  have hpi : (2 : ℝ) * π ≠ 0 := by positivity
  have harg : (t - (k : ℝ) * (2 * π) + π) / (2 * π) = (t + π) / (2 * π) + (-k : ℤ) := by
    field_simp
    ring
  rw [harg, Int.floor_add_int]
  push_cast
  ring

theorem Np_sub_int_mul_two_pi (H : HairHelpers) (phi : ℝ) (k : ℤ) (p : ℕ)
    (s go gt : ℝ) :
    Np H (phi - (k : ℝ) * (2 * π)) p s go gt = Np H phi p s go gt := by
  unfold Np
  rw [show phi - (k : ℝ) * (2 * π) - H.Phi p go gt =
    phi - H.Phi p go gt - (k : ℝ) * (2 * π) from by ring,
    wrapAngle_sub_int_mul_two_pi]

theorem atan2_scaled (c t : ℝ) (hc : 0 < c) :
    ∃ k : ℤ, atan2 (c * Real.sin t) (c * Real.cos t) = t - (k : ℝ) * (2 * π) := by
  refine ⟨toIocDiv Real.two_pi_pos (-π) t, ?_⟩
  set t0 := toIocMod Real.two_pi_pos (-π) t with ht0
  have hk : t0 = t - (toIocDiv Real.two_pi_pos (-π) t : ℝ) * (2 * π) := by
    have h := self_sub_toIocMod Real.two_pi_pos (-π) t
    rw [zsmul_eq_mul] at h
    rw [← ht0] at h
    linarith
  have hmem : t0 ∈ Set.Ioc (-π) π := by
    have h := toIocMod_mem_Ioc Real.two_pi_pos (-π) t
    rw [← ht0] at h
    convert h using 2
    ring
  have hcs : Real.cos t = Real.cos t0 := by
    rw [hk, Real.cos_sub_int_mul_two_pi]
  have hss : Real.sin t = Real.sin t0 := by
    rw [hk, Real.sin_sub_int_mul_two_pi]
  unfold atan2
  have hz : (⟨c * Real.cos t, c * Real.sin t⟩ : ℂ) =
      (c : ℂ) * (Complex.cos t0 + Complex.sin t0 * Complex.I) := by
    apply Complex.ext <;>
      simp [hcs, hss, Complex.add_re, Complex.add_im, Complex.mul_re, Complex.mul_im,
        Complex.cos_ofReal_re, Complex.sin_ofReal_re, Complex.cos_ofReal_im,
        Complex.sin_ofReal_im]
  rw [hz, Complex.arg_mul_cos_add_sin_mul_I hc hmem]
  exact hk

theorem hairPDF_reconstruct {n : ℕ} (st : HairBxDF n) (H : HairHelpers) (wo : Vec3)
    (mode : TransportMode) (fl : BxDFReflTransFlags) (S D : ℝ) (hs : S ^ 2 < 1) :
    HairBxDF.PDF st H wo
      ⟨S, SafeSqrt (1 - S ^ 2) * Real.cos (atan2 wo.z wo.y + D),
        SafeSqrt (1 - S ^ 2) * Real.sin (atan2 wo.z wo.y + D)⟩ mode fl =
    hairPdfFormula st H wo S D := by
  have hc : 0 < SafeSqrt (1 - S ^ 2) := by
    unfold SafeSqrt
    exact Real.sqrt_pos.mpr (lt_max_iff.mpr (Or.inr (by linarith)))
  obtain ⟨k, hk⟩ := atan2_scaled (SafeSqrt (1 - S ^ 2)) (atan2 wo.z wo.y + D) hc
  simp only [HairBxDF.PDF, hairPdfFormula, hk]
  simp only [show atan2 wo.z wo.y + D - (k : ℝ) * (2 * π) - atan2 wo.z wo.y =
    D - (k : ℝ) * (2 * π) from by ring]
  simp only [Np_sub_int_mul_two_pi]
  simp only [show st.eta * st.eta = st.eta ^ 2 from (pow_two st.eta).symm]

/-- C1: the density that `HairBxDF::Sample_f` returns with its sample is
the full mixture density over all lobes (weighted by `ApPDF`, residual
included), and for every outgoing direction and random inputs it equals
what `HairBxDF::PDF` independently recomputes at the sampled incident
direction (nondegenerate sampled direction, `wi.x^2 < 1`). -/
theorem hair_sample_density_consistent {n : ℕ} (st : HairBxDF n) (H : HairHelpers)
    (wo : Vec3) (uc : ℝ) (u : ℝ × ℝ) (mode : TransportMode)
    (fl fl2 : BxDFReflTransFlags) (bs : BSDFSample n)
    (hbs : HairBxDF.Sample_f st H wo uc u mode fl = some bs)
    (hnd : bs.wi.x ^ 2 < 1) :
    HairBxDF.PDF st H wo bs.wi mode fl2 = bs.pdf := by
  have hbs2 : HairBxDF.sampleCore st H wo uc u mode = bs := by
    simpa [HairBxDF.Sample_f] using hbs
  subst hbs2
  simp only [HairBxDF.sampleCore] at hnd ⊢
  exact hairPDF_reconstruct st H wo mode fl2 _ _ hnd

theorem tilt_hairSt (q : ℕ) : tiltedSinCos hairSt 0 1 q = (0, 1) := by
  rcases q with _ | _ | _ | q <;> simp [tiltedSinCos, hairSt]

theorem hairSt_v (q : Fin 4) : hairSt.v q = 1 := rfl

theorem max_one_eps : max (1 : ℝ) 1e-5 = 1 := max_eq_left (by norm_num)

theorem SafeSqrt_zero : SafeSqrt 0 = 0 := by
  rw [SafeSqrt_of_nonneg _ le_rfl, Real.sqrt_zero]

/-- Witness for C1 at a concrete state, helper instance and inputs. -/
theorem hair_sample_density_consistent_witness :
    HairBxDF.PDF hairSt constHelpers ⟨0, 1, 0⟩
      (HairBxDF.sampleCore hairSt constHelpers ⟨0, 1, 0⟩ 0 (1, 0)
        TransportMode.Radiance).wi TransportMode.Radiance ⟨true, true⟩ =
    (HairBxDF.sampleCore hairSt constHelpers ⟨0, 1, 0⟩ 0 (1, 0)
      TransportMode.Radiance).pdf :=
  hair_sample_density_consistent hairSt constHelpers ⟨0, 1, 0⟩ 0 (1, 0)
    TransportMode.Radiance ⟨true, true⟩ ⟨true, true⟩ _ rfl (by
      simp only [HairBxDF.sampleCore]
      norm_num [SafeSqrt_one, tilt_hairSt, hairSt_v, max_one_eps, Real.log_one,
        SafeSqrt_zero])

/-! ## C7: the tensor loader -/

theorem encodeLE_length (k : ℕ) : ∀ v, (encodeLE k v).length = k := by
  induction k with
  | zero => intro v; rfl
  | succ k ih => intro v; simp [encodeLE, ih]

theorem decode_encodeLE (k : ℕ) : ∀ v, v < 256 ^ k → decodeLE (encodeLE k v) = v := by
  induction k with
  | zero =>
    intro v h
    simp only [pow_zero, Nat.lt_one_iff] at h
    simp [h, encodeLE, decodeLE]
  | succ k ih =>
    intro v h
    have hdiv : v / 256 < 256 ^ k := by
      rw [Nat.div_lt_iff_lt_mul (by norm_num)]
      rw [pow_succ] at h
      omega
    simp [encodeLE, decodeLE, ih _ hdiv]
    omega

theorem readAt_imp_le (file : List ℕ) (pos cnt : ℕ) (l : List ℕ)
    (h : readAt file pos cnt = some l) : pos + cnt ≤ file.length := by
  unfold readAt at h
  split at h
  · assumption
  · exact absurd h (by simp)

theorem readAt_some (file : List ℕ) (pos cnt : ℕ) (h : pos + cnt ≤ file.length) :
    readAt file pos cnt = some ((file.drop pos).take cnt) := if_pos h

theorem sliceFront (file : List ℕ) (pos a b : ℕ) (P S : List ℕ)
    (hP : P.length = a)
    (hD : (file.drop pos).take (a + b) = P ++ S) :
    (file.drop pos).take a = P := by
  have h := congrArg (List.take a) hD
  rw [List.take_take, min_eq_left (by omega), List.take_left' hP] at h
  exact h

theorem slice_decomp (file : List ℕ) (pos a b : ℕ) (P S : List ℕ)
    (hP : P.length = a)
    (hD : (file.drop pos).take (a + b) = P ++ S) :
    (file.drop (pos + a)).take b = S := by
  have h := congrArg (List.drop a) hD
  rw [List.drop_take, List.drop_left' hP] at h
  rw [show a + b - a = b from by omega] at h
  rw [show file.drop (pos + a) = (file.drop pos).drop a from by
    rw [List.drop_drop, Nat.add_comm]]
  exact h

theorem readE_ok (file : List ℕ) (start cnt : ℕ) (S : List ℕ) (w : String)
    (hslice : (file.drop start).take cnt = S)
    (hlen : start + cnt ≤ file.length) :
    readE file start cnt w = .ok S := by
  unfold readE
  rw [readAt_some _ _ _ hlen, hslice]

theorem flatten_map_encodeLE_length (shape : List ℕ) :
    ((shape.map (encodeLE 8)).flatten).length = 8 * shape.length := by
  induction shape with
  | nil => rfl
  | cons d rest ih =>
    simp [List.map_cons, List.flatten_cons, encodeLE_length, ih]
    ring

theorem fieldDesc_length (nm : List ℕ) (dt off : ℕ) (shape : List ℕ) :
    (fieldDesc nm dt off shape).length = fieldDescLen nm shape.length := by
  simp only [fieldDesc, fieldDescLen, List.length_append, encodeLE_length,
    flatten_map_encodeLE_length]
  omega

theorem encodeDescs_length : ∀ (fs : List RawField) (base : ℕ),
    (encodeDescs base fs).length = descsLen fs := by
  intro fs
  induction fs with
  | nil => intro base; rfl
  | cons f rest ih =>
    intro base
    simp only [encodeDescs, descsLen, List.length_append, fieldDesc_length, ih,
      List.map_cons, List.sum_cons]

theorem readShapeE_encoded (file : List ℕ) : ∀ (shape : List ℕ) (pos : ℕ),
    (file.drop pos).take (8 * shape.length) = (shape.map (encodeLE 8)).flatten →
    pos + 8 * shape.length ≤ file.length →
    (∀ d ∈ shape, d < 2 ^ 64) →
    readShapeE file pos shape.length = .ok shape := by
  intro shape
  induction shape with
  | nil => intro pos _ _ _; rfl
  | cons d rest ih =>
    intro pos hD hlen hdims
    have hD' : (file.drop pos).take (8 + 8 * rest.length) =
        encodeLE 8 d ++ (rest.map (encodeLE 8)).flatten := by
      rw [show 8 + 8 * rest.length = 8 * (d :: rest).length from by
        simp [List.length_cons]; ring]
      rw [hD]
      simp [List.map_cons, List.flatten_cons]
    have e1 : readE file pos 8 "size_value" = .ok (encodeLE 8 d) := by
      refine readE_ok file pos 8 _ _ ?_ ?_
      · exact sliceFront file pos 8 (8 * rest.length) _ _ (encodeLE_length 8 d) hD'
      · simp only [List.length_cons] at hlen; omega
    have e2 : readShapeE file (pos + 8) rest.length = .ok rest := by
      refine ih (pos + 8) ?_ ?_ ?_
      · exact slice_decomp file pos 8 (8 * rest.length) _ _ (encodeLE_length 8 d) hD'
      · simp only [List.length_cons] at hlen; omega
      · intro x hx; exact hdims x (List.mem_cons_of_mem d hx)
    show readShapeE file pos (rest.length + 1) = .ok (d :: rest)
    simp only [readShapeE, e1, e2, bind, Except.bind]
    rw [decode_encodeLE 8 d (hdims d (List.mem_cons_self d rest))]

theorem readField_encoded (file : List ℕ) (pos : ℕ) (nm : List ℕ) (dt off : ℕ)
    (shape payload : List ℕ)
    (hD : (file.drop pos).take (fieldDescLen nm shape.length) =
      fieldDesc nm dt off shape)
    (hlen : pos + fieldDescLen nm shape.length ≤ file.length)
    (hnm : nm.length < 65536) (hrank : shape.length < 65536)
    (hdt1 : 1 ≤ dt) (hdt2 : dt ≤ 11) (hoff : off < 2 ^ 64)
    (hdims : ∀ d ∈ shape, d < 2 ^ 64)
    (hpay : readAt file off (typeSize dt * shape.prod) = some payload) :
    readField file pos =
      .ok ((nm, ⟨dt, off, shape, payload⟩), pos + fieldDescLen nm shape.length) := by
  have hL : fieldDescLen nm shape.length =
      2 + (nm.length + (2 + (1 + (8 + 8 * shape.length)))) := by
    unfold fieldDescLen; omega
  have hD1 : (file.drop pos).take (2 + (nm.length + (2 + (1 + (8 + 8 * shape.length))))) =
      encodeLE 2 nm.length ++ (nm ++ (encodeLE 2 shape.length ++ (encodeLE 1 dt ++
        (encodeLE 8 off ++ (shape.map (encodeLE 8)).flatten)))) := by
    rw [← hL, hD]; simp [fieldDesc, List.append_assoc]
  rw [hL] at hlen
  have e1 : readE file pos 2 "name_length" = .ok (encodeLE 2 nm.length) :=
    readE_ok file pos 2 _ _
      (sliceFront file pos 2 _ _ _ (encodeLE_length 2 nm.length) hD1) (by omega)
  have hD2 := slice_decomp file pos 2 _ _ _ (encodeLE_length 2 nm.length) hD1
  have e2 : readE file (pos + 2) nm.length "name" = .ok nm :=
    readE_ok file (pos + 2) nm.length _ _
      (sliceFront file (pos + 2) nm.length _ _ _ rfl hD2) (by omega)
  have hD3 := slice_decomp file (pos + 2) nm.length _ _ _ rfl hD2
  have e3 : readE file (pos + 2 + nm.length) 2 "ndim" = .ok (encodeLE 2 shape.length) :=
    readE_ok file (pos + 2 + nm.length) 2 _ _
      (sliceFront file (pos + 2 + nm.length) 2 _ _ _
        (encodeLE_length 2 shape.length) hD3) (by omega)
  have hD4 := slice_decomp file (pos + 2 + nm.length) 2 _ _ _
    (encodeLE_length 2 shape.length) hD3
  rw [show pos + 2 + nm.length + 2 = pos + 4 + nm.length from by omega] at hD4
  have e4 : readE file (pos + 4 + nm.length) 1 "dtype" = .ok (encodeLE 1 dt) :=
    readE_ok file (pos + 4 + nm.length) 1 _ _
      (sliceFront file (pos + 4 + nm.length) 1 _ _ _ (encodeLE_length 1 dt) hD4)
      (by omega)
  have hD5 := slice_decomp file (pos + 4 + nm.length) 1 _ _ _ (encodeLE_length 1 dt) hD4
  rw [show pos + 4 + nm.length + 1 = pos + 5 + nm.length from by omega] at hD5
  have e5 : readE file (pos + 5 + nm.length) 8 "offset" = .ok (encodeLE 8 off) :=
    readE_ok file (pos + 5 + nm.length) 8 _ _
      (sliceFront file (pos + 5 + nm.length) 8 _ _ _ (encodeLE_length 8 off) hD5)
      (by omega)
  have hD6 := slice_decomp file (pos + 5 + nm.length) 8 _ _ _ (encodeLE_length 8 off) hD5
  rw [show pos + 5 + nm.length + 8 = pos + 13 + nm.length from by omega] at hD6
  have e6 : readShapeE file (pos + 13 + nm.length) shape.length = .ok shape := by
    refine readShapeE_encoded file shape (pos + 13 + nm.length) ?_ (by omega) hdims
    rw [show 8 * shape.length = 8 * shape.length + 0 from by omega] at hD6 ⊢
    exact hD6.trans (by simp)
  have hdecnm : decodeLE (encodeLE 2 nm.length) = nm.length :=
    decode_encodeLE 2 nm.length (by norm_num; omega)
  have hdecrank : decodeLE (encodeLE 2 shape.length) = shape.length :=
    decode_encodeLE 2 shape.length (by norm_num; omega)
  have hdecdt : decodeLE (encodeLE 1 dt) = dt := decode_encodeLE 1 dt (by norm_num; omega)
  have hdecoff : decodeLE (encodeLE 8 off) = off := decode_encodeLE 8 off (by norm_num; omega)
  have hdtif : ¬(dt = 0 ∨ 11 < dt) := by omega
  have epay : readE file off (typeSize dt * shape.prod) "tensor data" = .ok payload := by
    unfold readE; rw [hpay]
  simp only [readField, bind, Except.bind, e1, hdecnm, e2, e3, e4, e5, hdecdt, hdecrank,
    hdecoff, hdtif, if_false, e6, epay]
  have : pos + 13 + nm.length + 8 * shape.length =
      pos + fieldDescLen nm shape.length := by unfold fieldDescLen; omega
  rw [this]

/-- The payload blob of each field sits at its assigned offset: field
`i`'s `payload.length` bytes are readable at cumulative position
`base_i`. -/
def payloadsOK (file : List ℕ) : ℕ → List RawField → Prop
  | _, [] => True
  | base, f :: fs => readAt file base f.payload.length = some f.payload ∧
      payloadsOK file (base + f.payload.length) fs

theorem payloadsOK_append : ∀ (fs : List RawField) (pre suf : List ℕ),
    payloadsOK (pre ++ encodePayloads fs ++ suf) pre.length fs := by
  intro fs
  induction fs with
  | nil => intro pre suf; trivial
  | cons f rest ih =>
    intro pre suf
    have hEP : encodePayloads (f :: rest) = f.payload ++ encodePayloads rest := by
      simp [encodePayloads]
    constructor
    · rw [hEP]
      unfold readAt
      rw [if_pos (by simp)]
      rw [show pre ++ (f.payload ++ encodePayloads rest) ++ suf =
        pre ++ (f.payload ++ (encodePayloads rest ++ suf)) from by simp]
      rw [List.drop_left, List.take_left]
    · have h := ih (pre ++ f.payload) suf
      rw [List.length_append] at h
      rw [hEP]
      rw [show pre ++ (f.payload ++ encodePayloads rest) ++ suf =
        (pre ++ f.payload) ++ encodePayloads rest ++ suf from by simp]
      exact h

theorem parseFields_encoded (file : List ℕ) : ∀ (fs : List RawField) (pos base : ℕ),
    (file.drop pos).take (descsLen fs) = encodeDescs base fs →
    pos + descsLen fs ≤ file.length →
    (∀ f ∈ fs, RawField.wf f) →
    payloadsOK file base fs →
    file.length < 2 ^ 64 →
    parseFields file pos fs.length = .ok (expectedFields base fs) := by
  intro fs
  induction fs with
  | nil => intro pos base _ _ _ _ _; rfl
  | cons f rest ih =>
    intro pos base hdesc hlen hwf hpok hf64
    obtain ⟨hpay, hpokrest⟩ := hpok
    obtain ⟨hnm, hrank, hdims, hdt1, hdt2, hplen⟩ := hwf f (List.mem_cons_self f rest)
    have hdlen : descsLen (f :: rest) =
        fieldDescLen f.name f.shape.length + descsLen rest := by
      simp [descsLen]
    rw [hdlen] at hdesc hlen
    have hEncD : encodeDescs base (f :: rest) = fieldDesc f.name f.dtype base f.shape ++
        encodeDescs (base + f.payload.length) rest := rfl
    rw [hEncD] at hdesc
    have hoff : base < 2 ^ 64 := by
      have := readAt_imp_le file base f.payload.length f.payload hpay
      omega
    have hfd := readField_encoded file pos f.name f.dtype base f.shape f.payload
      (sliceFront file pos _ _ _ _ (fieldDesc_length f.name f.dtype base f.shape) hdesc)
      (by omega) hnm hrank hdt1 hdt2 hoff hdims (by rw [← hplen]; exact hpay)
    have hrest := ih (pos + fieldDescLen f.name f.shape.length) (base + f.payload.length)
      (slice_decomp file pos _ _ _ _ (fieldDesc_length f.name f.dtype base f.shape) hdesc)
      (by omega) (fun g hg => hwf g (List.mem_cons_of_mem f hg)) hpokrest hf64
    show parseFields file pos (rest.length + 1) = _
    simp only [parseFields, bind, Except.bind, hfd, hrest]
    rfl

theorem tensorLoad_encode (fs : List RawField)
    (hwf : ∀ f ∈ fs, RawField.wf f)
    (hcnt : fs.length < 2 ^ 32)
    (hflen : (encodeTensor fs).length < 2 ^ 64) :
    Tensor.load (encodeTensor fs) = .ok (expectedFields (18 + descsLen fs) fs) := by
  have hFlen : (encodeTensor fs).length =
      18 + descsLen fs + (encodePayloads fs).length := by
    simp only [encodeTensor, List.length_append, magicBytes, List.length_cons,
      List.length_nil, encodeLE_length, encodeDescs_length]
  have hA12 : encodeTensor fs = magicBytes ++ ([1, 0] ++ (encodeLE 4 fs.length ++
      (encodeDescs (18 + descsLen fs) fs ++ encodePayloads fs))) := by
    simp [encodeTensor, List.append_assoc]
  have h12 : (encodeTensor fs).take 12 = magicBytes := by
    rw [hA12]
    exact List.take_left' (show magicBytes.length = 12 from rfl)
  have hver : ((encodeTensor fs).drop 12).take 2 = [1, 0] := by
    rw [hA12, List.drop_left' (show magicBytes.length = 12 from rfl)]
    exact List.take_left' (show ([1, 0] : List ℕ).length = 2 from rfl)
  have hA14 : encodeTensor fs = (magicBytes ++ [1, 0]) ++ (encodeLE 4 fs.length ++
      (encodeDescs (18 + descsLen fs) fs ++ encodePayloads fs)) := by
    simp [encodeTensor, List.append_assoc]
  have hnf : decodeLE (((encodeTensor fs).drop 14).take 4) = fs.length := by
    rw [hA14, List.drop_left' (show (magicBytes ++ [1, 0]).length = 14 from rfl),
      List.take_left' (encodeLE_length 4 fs.length)]
    exact decode_encodeLE 4 fs.length
      (by have h : (256 : ℕ) ^ 4 = 2 ^ 32 := by norm_num
          omega)
  have hA18 : encodeTensor fs = (magicBytes ++ ([1, 0] ++ encodeLE 4 fs.length)) ++
      (encodeDescs (18 + descsLen fs) fs ++ encodePayloads fs) := by
    simp [encodeTensor, List.append_assoc]
  have h18len : (magicBytes ++ ([1, 0] ++ encodeLE 4 fs.length)).length = 18 := by
    simp only [List.length_append, magicBytes, List.length_cons, List.length_nil,
      encodeLE_length]
  have hdesc : ((encodeTensor fs).drop 18).take (descsLen fs) =
      encodeDescs (18 + descsLen fs) fs := by
    rw [hA18, List.drop_left' h18len, List.take_left' (encodeDescs_length fs _)]
  have hpok : payloadsOK (encodeTensor fs) (18 + descsLen fs) fs := by
    have h := payloadsOK_append fs (magicBytes ++ ([1, 0] ++ (encodeLE 4 fs.length ++
      encodeDescs (18 + descsLen fs) fs))) []
    have hpre : (magicBytes ++ ([1, 0] ++ (encodeLE 4 fs.length ++
        encodeDescs (18 + descsLen fs) fs))).length = 18 + descsLen fs := by
      simp only [List.length_append, magicBytes, List.length_cons, List.length_nil,
        encodeLE_length, encodeDescs_length]
      omega
    rw [hpre, List.append_nil] at h
    rw [show magicBytes ++ ([1, 0] ++ (encodeLE 4 fs.length ++
      encodeDescs (18 + descsLen fs) fs)) ++ encodePayloads fs = encodeTensor fs from by
      simp [encodeTensor, List.append_assoc]] at h
    exact h
  have hP := parseFields_encoded (encodeTensor fs) fs 18 (18 + descsLen fs) hdesc
    (by omega) hwf hpok hflen
  unfold Tensor.load
  rw [if_neg (by omega)]
  simp only [h12, hver, hnf, ne_eq, eq_self_iff_true, not_true_eq_false, if_false]
  exact hP

theorem readE_ok_inv (file : List ℕ) (pos cnt : ℕ) (w : String) (bs : List ℕ)
    (h : readE file pos cnt w = .ok bs) :
    bs = (file.drop pos).take cnt ∧ pos + cnt ≤ file.length := by
  by_cases hc : pos + cnt ≤ file.length
  · have h2 : readE file pos cnt w = .ok ((file.drop pos).take cnt) := by
      unfold readE
      rw [readAt_some file pos cnt hc]
    have h3 := h2.symm.trans h
    injection h3 with h4
    exact ⟨h4.symm, hc⟩
  · unfold readE readAt at h
    rw [if_neg hc] at h
    exact Except.noConfusion h

theorem readField_ok_payload (file : List ℕ) (pos : ℕ) (nm : List ℕ) (fld : TField)
    (p2 : ℕ) (h : readField file pos = .ok ((nm, fld), p2)) :
    fld.data = (file.drop fld.offset).take (typeSize fld.dtype * fld.shape.prod) ∧
      fld.offset + typeSize fld.dtype * fld.shape.prod ≤ file.length := by
  unfold readField at h
  simp only [bind, Except.bind] at h
  repeat' (first | exact Except.noConfusion h | split at h)
  rename_i dat hdat
  obtain ⟨hsl, hle⟩ := readE_ok_inv _ _ _ _ _ hdat
  simp only [Except.ok.injEq, Prod.mk.injEq] at h
  obtain ⟨⟨hnm, hfld⟩, hp⟩ := h
  subst hfld
  exact ⟨hsl, hle⟩

theorem readField_unknown_dtype (file : List ℕ) (pos : ℕ)
    (nlB nm ndB dtB offB : List ℕ)
    (h1 : readE file pos 2 "name_length" = .ok nlB)
    (h2 : readE file (pos + 2) (decodeLE nlB) "name" = .ok nm)
    (h3 : readE file (pos + 2 + decodeLE nlB) 2 "ndim" = .ok ndB)
    (h4 : readE file (pos + 4 + decodeLE nlB) 1 "dtype" = .ok dtB)
    (h5 : readE file (pos + 5 + decodeLE nlB) 8 "offset" = .ok offB)
    (hbad : decodeLE dtB = 0 ∨ 11 < decodeLE dtB) :
    readField file pos = .error "Invalid tensor file: unknown type." := by
  unfold readField
  simp only [bind, Except.bind, h1, h2, h3, h4, h5]
  rw [if_pos hbad]

/-- C7: the tensor loader fails fast on a truncated file, a bad magic
string, a version other than 1.0, a read past end of file, and a field
dtype code of 0 or greater than 11; every well-formed file of arbitrary
field count and shapes (as produced by the spec-side encoder) is
accepted with no validation of field meaning; and for accepted files
each field's payload is read from the header-declared absolute byte
offset with size `product(shape) * dtype-size`, independent of the
header streaming position. -/
theorem tensor_loader_contract :
    (∀ file : List ℕ, file.length < 18 →
      Tensor.load file = .error "Invalid tensor file: too small, truncated?") ∧
    (∀ file : List ℕ, ¬ file.length < 18 → file.take 12 ≠ magicBytes →
      Tensor.load file = .error "Invalid tensor file: invalid header.") ∧
    (∀ file : List ℕ, ¬ file.length < 18 → file.take 12 = magicBytes →
      (file.drop 12).take 2 ≠ [1, 0] →
      Tensor.load file = .error "Invalid tensor file: unknown file version.") ∧
    (∀ (file : List ℕ) (pos cnt : ℕ) (w : String), file.length < pos + cnt →
      readE file pos cnt w = .error ("Unable to read " ++ w ++ ".")) ∧
    (∀ (file : List ℕ) (pos : ℕ) (nlB nm ndB dtB offB : List ℕ),
      readE file pos 2 "name_length" = .ok nlB →
      readE file (pos + 2) (decodeLE nlB) "name" = .ok nm →
      readE file (pos + 2 + decodeLE nlB) 2 "ndim" = .ok ndB →
      readE file (pos + 4 + decodeLE nlB) 1 "dtype" = .ok dtB →
      readE file (pos + 5 + decodeLE nlB) 8 "offset" = .ok offB →
      decodeLE dtB = 0 ∨ 11 < decodeLE dtB →
      readField file pos = .error "Invalid tensor file: unknown type.") ∧
    (∀ (file : List ℕ) (pos : ℕ) (nm : List ℕ) (fld : TField) (p2 : ℕ),
      readField file pos = .ok ((nm, fld), p2) →
      fld.data = (file.drop fld.offset).take (typeSize fld.dtype * fld.shape.prod) ∧
        fld.offset + typeSize fld.dtype * fld.shape.prod ≤ file.length) ∧
    (∀ fs : List RawField, (∀ f ∈ fs, RawField.wf f) → fs.length < 2 ^ 32 →
      (encodeTensor fs).length < 2 ^ 64 →
      Tensor.load (encodeTensor fs) = .ok (expectedFields (18 + descsLen fs) fs)) := by
  refine ⟨?_, ?_, ?_, ?_, ?_, ?_, ?_⟩
  · intro file h
    unfold Tensor.load
    rw [if_pos (by omega)]
  · intro file h18 hm
    simp [Tensor.load, show ¬ file.length < 12 + 2 + 4 from by omega, hm]
  · intro file h18 hm hv
    simp [Tensor.load, show ¬ file.length < 12 + 2 + 4 from by omega, hm, hv]
  · intro file pos cnt w h
    unfold readE readAt
    rw [if_neg (by omega)]
  · exact fun file pos nlB nm ndB dtB offB h1 h2 h3 h4 h5 hbad =>
      readField_unknown_dtype file pos nlB nm ndB dtB offB h1 h2 h3 h4 h5 hbad
  · exact fun file pos nm fld p2 h => readField_ok_payload file pos nm fld p2 h
  · exact fun fs hwf hcnt hflen => tensorLoad_encode fs hwf hcnt hflen

/-- Witness: a concrete one-field file (name "a", dtype UInt8, shape
[2], payload [7, 9]) round-trips through the loader. -/
theorem tensor_loader_contract_witness :
    Tensor.load (encodeTensor [⟨[97], 1, [2], [7, 9]⟩]) =
      .ok (expectedFields 40 [⟨[97], 1, [2], [7, 9]⟩]) := by
  have h := tensor_loader_contract.2.2.2.2.2.2 [⟨[97], 1, [2], [7, 9]⟩]
    (by intro f hf
        simp only [List.mem_singleton] at hf
        subst hf
        unfold RawField.wf
        decide)
    (by decide) (by decide)
  rw [show (40 : ℕ) = 18 + descsLen [⟨[97], 1, [2], [7, 9]⟩] from by decide]
  exact h
